import Mathlib

/-!
# Verification development for `yolov5_Deepsort_rknn`

Shallow embedding of the parts of the repository that the specification's
claims talk about:

* `ReorderBuffer` : the frame reorder buffer between the inference workers and
  the tracking consumer (`submit` / `take_next`);
* `DeepSort`      : the tracker life cycle (`Tentative`, `Confirmed`, `Deleted`);
* `Pipeline`      : the fixed thread set started by `main` in `yolov5_c.cpp`;
* `I2cTransfer`   : the argument parser of `3rdparty/i2c-tools/tools/i2ctransfer.c`;
* `CLib`          : `strtol` and the 32-bit `int` operations the tools below use;
* `I2cSet`        : command line and write sequence of `3rdparty/i2c-tools/tools/i2cset.c`;
* `I2cGet`        : command line, `confirm` and read sequence of
  `3rdparty/i2c-tools/tools/i2cget.c`;
* `Robot`         : `deadBand` and `controlLoop` of `robot/src/control.cpp`.
-/

set_option autoImplicit false

/-! ## Frame reorder buffer -/

namespace ReorderBuffer

/-- Modelled from the spec: the PipelineResult of section 3, the unit
exchanged between the inference workers and the buffer: a frame index and the
detections computed for that frame (kept abstract as a list of numbers; the
frame itself is left out). -/
structure PipelineResult where
  frame_index : Nat
  detections : List Nat
deriving DecidableEq, Repr

/-- Modelled from the spec: the Frame Reorder Buffer of section 4.4.  The
functions `submit` and `take_next` are not in the available sources
(`yolov5_c.cpp` only declares the shared queues and the counters
`idxInputImage` / `idxShowImage`).  The buffer holds a bounded mapping from
frame index to pending result and the "next expected" counter. -/
structure Buffer where
  next_expected : Nat
  pending : List PipelineResult
  capacity : Nat
deriving DecidableEq, Repr

/-- Modelled from the spec: what a call of `submit` does: the result is
stored, or the call is rejected as a duplicate, or it blocks on a full
buffer. -/
inductive SubmitOutcome where
  | accepted
  | rejected
  | blocked
deriving DecidableEq, Repr

/-- Modelled from the spec: `submit(frame_index, result)`.  An index below the
"next expected" counter, or one that is already pending, is a duplicate and is
rejected; when the buffer holds `capacity` pending results the call blocks
(the buffer is left as it is and the caller has to come back); otherwise the
result is stored. -/
def submit (b : Buffer) (r : PipelineResult) : Buffer × SubmitOutcome :=
  if r.frame_index < b.next_expected then (b, .rejected)
  else if b.pending.any (fun p => p.frame_index == r.frame_index) then (b, .rejected)
  else if b.capacity ≤ b.pending.length then (b, .blocked)
  else ({ b with pending := r :: b.pending }, .accepted)

/-- Modelled from the spec: `take_next()`.  When the result for the smallest
not-yet-released frame index (the "next expected" counter) is pending it is
returned and the counter advances; otherwise the call blocks (`none`). -/
def take_next (b : Buffer) : Option (PipelineResult × Buffer) :=
  match b.pending.find? (fun p => p.frame_index == b.next_expected) with
  | none => none
  | some r =>
    some (r, { b with
      next_expected := b.next_expected + 1
      pending := b.pending.filter (fun p => p.frame_index != b.next_expected) })

/-- One atomic operation on the buffer (every operation runs under the
buffer's lock, so a concurrent execution is an interleaving of these). -/
inductive Op where
  | submit (r : PipelineResult)
  | take
deriving DecidableEq, Repr

/-- Runs an interleaving of operations; returns the final buffer and the
results handed out by the `take_next` calls, in the order of the calls.  A
blocked call leaves the buffer unchanged. -/
def run : Buffer → List Op → Buffer × List PipelineResult
  | b, [] => (b, [])
  | b, Op.submit r :: ops => run (submit b r).1 ops
  | b, Op.take :: ops =>
    match take_next b with
    | none => run b ops
    | some (r, b') => ((run b' ops).1, r :: (run b' ops).2)

end ReorderBuffer

/-! ## Tracker life cycle -/

namespace DeepSort

/-- Modelled from the spec: the life-cycle state of a track (section 3:
`Tentative | Confirmed | Deleted`); its declaration in `track.h` is not in
the available sources. -/
inductive TrackState where
  | Tentative
  | Confirmed
  | Deleted
deriving DecidableEq, Repr

/-- Modelled from the spec: the life-cycle attributes of a Track (section 3):
its id, hit counter, time-since-last-update counter and state.  The class
`Track` itself is missing from the available sources (`tracker.h` includes
`track.h` and holds a `std::vector<Track>`).  The Kalman state, the box and the
feature gallery take no part in the life cycle and are left out. -/
structure Track where
  track_id : Nat
  hits : Nat
  time_since_update : Nat
  state : TrackState
deriving DecidableEq, Repr

/-- Modelled from the spec: what step 3 of a tracker cycle does to a matched
track: "increment hit counter; reset time-since-update to 0; ... if state is
`Tentative` and hit counter ≥ `n_init`, transition to `Confirmed`". -/
def Track.update (n_init : Int) (tr : Track) : Track :=
  let hits := tr.hits + 1
  { tr with
    hits := hits
    time_since_update := 0
    state := if tr.state = TrackState.Tentative ∧ n_init ≤ (hits : Int)
             then TrackState.Confirmed else tr.state }

/-- Modelled from the spec: what step 4 of a tracker cycle does to an
unmatched track: "increment time-since-update; if state is `Tentative`,
transition directly to `Deleted`; if state is `Confirmed` and
time-since-update exceeds `max_age`, transition to `Deleted`". -/
def Track.mark_missed (max_age : Int) (tr : Track) : Track :=
  let tsu := tr.time_since_update + 1
  { tr with
    time_since_update := tsu
    state := if tr.state = TrackState.Tentative then TrackState.Deleted
             else if tr.state = TrackState.Confirmed ∧ max_age < (tsu : Int)
             then TrackState.Deleted else tr.state }

/-- Modelled from the spec: step 5, `_initiate_track` (declared in
`tracker.h`, body missing): a new `Tentative` track.  The detection that
creates the track is its first hit: the spec's end-to-end scenario (five
frames with one detection each, `n_init = 2`, "one track confirmed at frame
2") confirms the track at its first match, so the hit counter starts at 1. -/
def _initiate_track (track_id : Nat) : Track :=
  { track_id := track_id, hits := 1, time_since_update := 0, state := TrackState.Tentative }

/-- Modelled from the spec: the result of the association step (the type
`TRACHER_MATCHD` that `tracker::_match` fills, declared outside the available
sources): "matched pairs, unmatched track ids, unmatched detection indices",
a matched pair being (track id, detection index). -/
structure TRACHER_MATCHD where
  matched : List (Nat × Nat)
  unmatched_tracks : List Nat
  unmatched_detections : List Nat
deriving DecidableEq, Repr

/-- The life-cycle fields of `class tracker` (`tracker.h`): `int max_age`,
`int n_init`, `int _next_idx` and `std::vector<Track> tracks`. -/
structure tracker where
  max_age : Int
  n_init : Int
  _next_idx : Nat
  tracks : List Track
deriving DecidableEq, Repr

/-- What one cycle does to one live track, given the association result. -/
def stepTrack (t : tracker) (res : TRACHER_MATCHD) (tr : Track) : Track :=
  if tr.track_id ∈ res.matched.map Prod.fst then tr.update t.n_init
  else if tr.track_id ∈ res.unmatched_tracks then tr.mark_missed t.max_age
  else tr

/-- Modelled from the spec: steps 3 to 6 of a tracker cycle (section 4.3),
`tracker::update` (declared in `tracker.h`, body missing).  The association
result is an input: matched tracks are updated, unmatched tracks are marked
missed, every unmatched detection starts a new track with the next id, and
the `Deleted` tracks leave the live set. -/
def tracker.update (t : tracker) (res : TRACHER_MATCHD) : tracker :=
  let stepped := t.tracks.map (stepTrack t res)
  let born := (List.range res.unmatched_detections.length).map
    (fun j => _initiate_track (t._next_idx + j))
  { t with
    tracks := (stepped ++ born).filter (fun tr => tr.state ≠ TrackState.Deleted)
    _next_idx := t._next_idx + res.unmatched_detections.length }

/-- Modelled from the spec: the tracker output, "the live set filtered to
`Confirmed` tracks". -/
def tracker.output (t : tracker) : List Track :=
  t.tracks.filter (fun tr => tr.state = TrackState.Confirmed)

/-- A sequence of cycles, one association result per cycle. -/
def tracker.run (t : tracker) (rs : List TRACHER_MATCHD) : tracker :=
  rs.foldl tracker.update t

/-- The live track with a given id. -/
def tracker.find (t : tracker) (id : Nat) : Option Track :=
  t.tracks.find? (fun tr => tr.track_id == id)

/-- The track with a given id as it appears in the tracker output. -/
def tracker.reported (t : tracker) (id : Nat) : Option Track :=
  t.output.find? (fun tr => tr.track_id == id)

/-- The track `id` is unmatched in this cycle. -/
def Missed (id : Nat) (res : TRACHER_MATCHD) : Prop :=
  id ∉ res.matched.map Prod.fst ∧ id ∈ res.unmatched_tracks

/-- The track `id` is matched with a detection in this cycle. -/
def Matched (id : Nat) (res : TRACHER_MATCHD) : Prop :=
  id ∈ res.matched.map Prod.fst

instance (id : Nat) (res : TRACHER_MATCHD) : Decidable (Missed id res) := by
  unfold Missed; infer_instance

instance (id : Nat) (res : TRACHER_MATCHD) : Decidable (Matched id res) := by
  unfold Matched; infer_instance

/-- Track ids are unique and below the next id to hand out. -/
def tracker.WF (t : tracker) : Prop :=
  (t.tracks.map Track.track_id).Nodup ∧ ∀ tr ∈ t.tracks, tr.track_id < t._next_idx

instance (t : tracker) : Decidable t.WF := by
  unfold tracker.WF; infer_instance

/-- A tracker with the default `n_init = 2` of `tracker.h` and `max_age = 2`,
before the first frame. -/
def emptyTracker : tracker := ⟨2, 2, 1, []⟩

/-- Association result of a cycle with one detection and no matching track. -/
def oneNewDetection : TRACHER_MATCHD := ⟨[], [], [0]⟩

/-- Association result of a cycle in which track 1 is matched with detection 0. -/
def matchTrack1 : TRACHER_MATCHD := ⟨[(1, 0)], [], []⟩

/-- Association result of a cycle without detections: track 1 is unmatched. -/
def missTrack1 : TRACHER_MATCHD := ⟨[], [1], []⟩

end DeepSort

/-! ## Threads started by `main` (`yolov5_c.cpp`) -/

namespace Pipeline

/-- NPU core masks of the RKNN runtime (`rknn_core_mask` in `rknn_api.h`). -/
inductive rknn_core_mask where
  | RKNN_NPU_CORE_AUTO
  | RKNN_NPU_CORE_0
  | RKNN_NPU_CORE_1
  | RKNN_NPU_CORE_2
  | RKNN_NPU_CORE_0_1
  | RKNN_NPU_CORE_0_1_2
deriving DecidableEq, Repr

/-- Entry point and arguments of a thread built in `main` (the path argument
is left out): `detect_process(path, n, core)`, `videoRead(path, n)`,
`videoWrite(path, n)`. -/
inductive ThreadSpec where
  | detect_process (n : Nat) (core : rknn_core_mask)
  | videoRead (n : Nat)
  | videoWrite (n : Nat)
deriving DecidableEq, Repr

/-- The constant `thread_num` of `main`. -/
def thread_num : Nat := 5

/-- The array `threads` of `main`, lines 49-55 of `yolov5_c.cpp`. -/
def threads : List ThreadSpec :=
  [ ThreadSpec.detect_process 0 rknn_core_mask.RKNN_NPU_CORE_0,
    ThreadSpec.detect_process 1 rknn_core_mask.RKNN_NPU_CORE_0,
    ThreadSpec.detect_process 2 rknn_core_mask.RKNN_NPU_CORE_0,
    ThreadSpec.videoRead 6,
    ThreadSpec.videoWrite 7 ]

/-- The NPU cores given to the inference workers, in the order of `threads`. -/
def workerCores (l : List ThreadSpec) : List rknn_core_mask :=
  l.filterMap (fun th => match th with
    | ThreadSpec.detect_process _ core => some core
    | _ => none)

/-- The integer arguments given to the inference workers. -/
def workerNumbers (l : List ThreadSpec) : List Nat :=
  l.filterMap (fun th => match th with
    | ThreadSpec.detect_process n _ => some n
    | _ => none)

/-- The capture threads among `l`. -/
def captureThreads (l : List ThreadSpec) : List ThreadSpec :=
  l.filter (fun th => match th with
    | ThreadSpec.videoRead _ => true
    | _ => false)

/-- The writer threads among `l`. -/
def writerThreads (l : List ThreadSpec) : List ThreadSpec :=
  l.filter (fun th => match th with
    | ThreadSpec.videoWrite _ => true
    | _ => false)

end Pipeline

/-! ## `i2ctransfer`: the argument parser of `main` -/

namespace I2cTransfer

/-- `I2C_M_RD` of `<linux/i2c.h>`. -/
def I2C_M_RD : Nat := 0x0001

/-- `I2C_M_RECV_LEN` of `<linux/i2c.h>`. -/
def I2C_M_RECV_LEN : Nat := 0x0400

/-- `I2C_RDRW_IOCTL_MAX_MSGS` of `<linux/i2c-dev.h>`: the number of elements of
the array `msgs` of `main`. -/
def I2C_RDRW_IOCTL_MAX_MSGS : Nat := 42

/-- `ULONG_MAX` for the 64-bit `unsigned long` of the target. -/
def ULONG_MAX : Nat := 2 ^ 64 - 1

/-- `isspace` of the C locale. -/
def isspace (c : Char) : Bool :=
  c.toNat = 32 || (9 ≤ c.toNat && c.toNat ≤ 13)

/-- Value of a character as a digit (`0-9`, `a-z`, `A-Z`), in any base. -/
def digitValue (c : Char) : Option Nat :=
  if 48 ≤ c.toNat ∧ c.toNat ≤ 57 then some (c.toNat - 48)
  else if 97 ≤ c.toNat ∧ c.toNat ≤ 122 then some (c.toNat - 87)
  else if 65 ≤ c.toNat ∧ c.toNat ≤ 90 then some (c.toNat - 55)
  else none

/-- Whether a character is a digit of the given base. -/
def isDigitOf (base : Nat) (c : Char) : Bool :=
  match digitValue c with
  | some d => decide (d < base)
  | none => false

/-- Reads the longest run of digits of the given base: returns the
accumulated value and the number of characters read. -/
def scanDigits (base : Nat) : List Char → Nat → Nat → Nat × Nat
  | [], acc, n => (acc, n)
  | c :: cs, acc, n =>
    match digitValue c with
    | some d => if d < base then scanDigits base cs (acc * base + d) (n + 1) else (acc, n)
    | none => (acc, n)

/-- The C library function `strtoul(s, &end, 0)`: skips white space, takes an
optional sign, detects the base from the prefix (`0x` hexadecimal, `0` octal,
decimal otherwise) and converts the longest run of digits.  Returns the value
and the number of characters consumed, so that `end = s + consumed`; no
conversion gives `(0, 0)` (`end == s`).  A value that does not fit is
`ULONG_MAX`; a minus sign negates the value in `unsigned long`. -/
def strtoul (s : List Char) : Nat × Nat :=
  let ws := (s.takeWhile isspace).length
  let s1 := s.drop ws
  let sign : Bool × Nat :=
    match s1 with
    | c :: _ => if c = '-' then (true, 1) else if c = '+' then (false, 1) else (false, 0)
    | [] => (false, 0)
  let s2 := s1.drop sign.2
  let base : Nat × Nat :=
    match s2 with
    | c0 :: cx :: h :: _ =>
      if c0 = '0' ∧ (cx = 'x' ∨ cx = 'X') ∧ isDigitOf 16 h = true then (16, 2)
      else if c0 = '0' then (8, 0) else (10, 0)
    | c0 :: _ => if c0 = '0' then (8, 0) else (10, 0)
    | [] => (10, 0)
  let r := scanDigits base.1 (s2.drop base.2) 0 0
  if r.2 = 0 then (0, 0)
  else
    let v := if r.1 > ULONG_MAX then ULONG_MAX
             else if sign.1 then (ULONG_MAX + 1 - r.1) % (ULONG_MAX + 1) else r.1
    (v, ws + sign.2 + base.2 + r.2)

/-- A `struct i2c_msg`: `__u16 addr`, `__u16 flags`, `__u16 len`, `__u8 *buf`
(`none` is the `NULL` pointer, `some b` a heap block holding the bytes `b`). -/
structure i2c_msg where
  addr : Nat
  flags : Nat
  len : Nat
  buf : Option (List Nat)
deriving DecidableEq, Repr

/-- `enum parse_state`. -/
inductive parse_state where
  | PARSE_GET_DESC
  | PARSE_GET_DATA
deriving DecidableEq, Repr

/-- The error exits of the argument loop and of the check after it, named by
the message printed. -/
inductive Failure where
  | TooManyMessages
  | InvalidDirection
  | VariableLengthWithWrite
  | LengthInvalid
  | UnknownSeparator
  | AddressInvalid
  | AddressBusy
  | NoAddressGiven
  | NoMemory
  | InvalidDataByte
  | InvalidDataByteSuffix
  | IncompleteMessage
deriving DecidableEq, Repr

/-- What the parser calls and does not define itself: `parse_i2c_address`
(of `i2cbusses.c`, applied to the address text and `all_addrs`),
`set_slave_addr(file, address, 0)` (of `i2cbusses.c`, an `ioctl`), and whether
`malloc` of a given size returns `NULL`. -/
structure Env where
  parse_i2c_address : List Char → Bool → Int
  set_slave_addr : Int → Int
  malloc_fails : Nat → Bool

/-- The command line flags the parser reads: `-a` and `-f`. -/
structure Flags where
  all_addrs : Bool
  force : Bool
deriving DecidableEq, Repr

/-- The local variables of `main` that the argument loop reads and writes.
`msgs i` is the memory cell `msgs[i]`; the array itself has
`I2C_RDRW_IOCTL_MAX_MSGS` elements, a cell with a larger index lies behind
it. -/
structure ParseState where
  address : Int
  nmsgs : Nat
  msgs : Nat → i2c_msg
  state : parse_state
  buf_idx : Nat

/-- Contents of a message cell before the loop: only `buf = NULL` is set by
`main`, the other fields are shown as 0. -/
def emptyMsg : i2c_msg := { addr := 0, flags := 0, len := 0, buf := none }

/-- The variables of `main` when the argument loop starts: `address = -1`,
`nmsgs = 0`, `state = PARSE_GET_DESC`, `buf_idx = 0`. -/
def initState : ParseState :=
  { address := -1, nmsgs := 0, msgs := fun _ => emptyMsg,
    state := parse_state.PARSE_GET_DESC, buf_idx := 0 }

/-- The assignment `msgs[i] = m`. -/
def setMsg (msgs : Nat → i2c_msg) (i : Nat) (m : i2c_msg) : Nat → i2c_msg :=
  fun j => if j = i then m else msgs j

/-- Direction and LENGTH of a DESC (lines 204-229): from the argument text to
the flags, the length and the rest of the text behind the length. -/
def parseDirLen (arg : List Char) : Except Failure (Nat × Nat × List Char) :=
  match arg with
  | [] => .error Failure.InvalidDirection
  | c :: p =>
    if c ≠ 'r' ∧ c ≠ 'w' then .error Failure.InvalidDirection
    else
      let flags := if c = 'r' then I2C_M_RD else 0
      if p.head? = some '?' then
        if flags &&& I2C_M_RD = 0 then .error Failure.VariableLengthWithWrite
        else .ok (flags ||| I2C_M_RECV_LEN, 256, p.drop 1)
      else
        let r := strtoul p
        if r.1 > 0xffff ∨ r.2 = 0 then .error Failure.LengthInvalid
        else .ok (flags, r.1, p.drop r.2)

/-- The address part of a DESC (lines 231-255): the new value of `address`. -/
def parseAddress (env : Env) (fl : Flags) (address : Int) (rest : List Char) :
    Except Failure Int :=
  match rest with
  | [] => if address < 0 then .error Failure.NoAddressGiven else .ok address
  | c :: q =>
    if c ≠ '@' then .error Failure.UnknownSeparator
    else
      let a := env.parse_i2c_address q fl.all_addrs
      if a < 0 then .error Failure.AddressInvalid
      else if fl.force = false ∧ env.set_slave_addr a ≠ 0 then .error Failure.AddressBusy
      else .ok a

/-- The buffer of a new message: `malloc(len)`, `memset(buf, 0, len)` and, for
a variable-length read, `buf[0] = 1`. -/
def newBuf (flags len : Nat) : List Nat :=
  if flags &&& I2C_M_RECV_LEN ≠ 0 then (List.replicate len 0).set 0 1
  else List.replicate len 0

/-- The stores of a DESC (lines 257-278): `msgs[nmsgs].addr`, `.flags`, `.len`
are assigned (truncated to `__u16`), the buffer is allocated when `len` is not
0, and a read or an empty message is complete at once (`nmsgs++`), while a
write with data switches to `PARSE_GET_DATA` with `buf_idx = 0`. -/
def storeDesc (s : ParseState) (flags len : Nat) (address : Int) : ParseState :=
  let m0 : i2c_msg :=
    { s.msgs s.nmsgs with
      addr := (address % 65536).toNat, flags := flags % 65536, len := len % 65536 }
  let m : i2c_msg := if len ≠ 0 then { m0 with buf := some (newBuf flags len) } else m0
  let msgs := setMsg s.msgs s.nmsgs m
  if flags &&& I2C_M_RD ≠ 0 ∨ len = 0 then
    { s with address := address, msgs := msgs, nmsgs := s.nmsgs + 1 }
  else
    { s with address := address, msgs := msgs, buf_idx := 0,
             state := parse_state.PARSE_GET_DATA }

/-- The case `PARSE_GET_DESC` of the argument loop (lines 203-280). -/
def parseDesc (env : Env) (fl : Flags) (s : ParseState) (arg : List Char) :
    Except Failure ParseState :=
  match parseDirLen arg with
  | .error e => .error e
  | .ok (flags, len, rest) =>
    match parseAddress env fl s.address rest with
    | .error e => .error e
    | .ok address =>
      if len ≠ 0 ∧ env.malloc_fails len = true then .error Failure.NoMemory
      else .ok (storeDesc s flags len address)

/-- The statement `data = (data ^ 27) + 13; data = (data << 1) | (data >> 7);`
on a `__u8`. -/
def nextRandom (data : Nat) : Nat :=
  let d := ((data ^^^ 27) + 13) % 256
  ((d <<< 1) ||| (d >>> 7)) % 256

/-- The loop `while (buf_idx < len)` of the case `PARSE_GET_DATA` (lines
291-310), `e` being the character `*end` (`none` for the terminating NUL).
The first argument counts the iterations left, `len - buf_idx`.  Returns the
buffer and `buf_idx` behind the loop. -/
def dataLoop (e : Option Char) (len : Nat) :
    Nat → List Nat → Nat → Nat → Except Failure (List Nat × Nat)
  | 0, buf, buf_idx, _ => .ok (buf, buf_idx)
  | n + 1, buf, buf_idx, data =>
    if buf_idx < len then
      let buf1 := buf.set buf_idx data
      match e with
      | none => .ok (buf1, buf_idx + 1)
      | some c =>
        if c = 'p' then dataLoop e len n buf1 (buf_idx + 1) (nextRandom data)
        else if c = '+' then dataLoop e len n buf1 (buf_idx + 1) ((data + 1) % 256)
        else if c = '-' then dataLoop e len n buf1 (buf_idx + 1) ((data + 255) % 256)
        else if c = '=' then dataLoop e len n buf1 (buf_idx + 1) data
        else .error Failure.InvalidDataByteSuffix
    else .ok (buf, buf_idx)

/-- The state behind the loop of `PARSE_GET_DATA` (lines 312-315): the buffer
of `msgs[nmsgs]` holds the bytes stored, and when `buf_idx == len` the message
is complete (`nmsgs++`, back to `PARSE_GET_DESC`). -/
def storeData (s : ParseState) (buf : List Nat) (buf_idx : Nat) : ParseState :=
  let m := s.msgs s.nmsgs
  let msgs := setMsg s.msgs s.nmsgs { m with buf := m.buf.map (fun _ => buf) }
  if buf_idx = m.len then
    { s with msgs := msgs, buf_idx := buf_idx, nmsgs := s.nmsgs + 1,
             state := parse_state.PARSE_GET_DESC }
  else { s with msgs := msgs, buf_idx := buf_idx }

/-- The case `PARSE_GET_DATA` of the argument loop (lines 282-317). -/
def parseData (s : ParseState) (arg : List Char) : Except Failure ParseState :=
  let r := strtoul arg
  if r.1 > 0xff ∨ r.2 = 0 then .error Failure.InvalidDataByte
  else
    let m := s.msgs s.nmsgs
    match dataLoop (arg.drop r.2).head? m.len (m.len - s.buf_idx) (m.buf.getD []) s.buf_idx
        (r.1 % 256) with
    | .error e => .error e
    | .ok (buf, buf_idx) => .ok (storeData s buf buf_idx)

/-- One turn of the loop `while (optind < argc)` (lines 189-326). -/
def parseArg (env : Env) (fl : Flags) (s : ParseState) (arg : List Char) :
    Except Failure ParseState :=
  if s.nmsgs > I2C_RDRW_IOCTL_MAX_MSGS then .error Failure.TooManyMessages
  else
    match s.state with
    | parse_state.PARSE_GET_DESC => parseDesc env fl s arg
    | parse_state.PARSE_GET_DATA => parseData s arg

/-- The loop `while (optind < argc)` over the arguments behind I2CBUS. -/
def parseLoop (env : Env) (fl : Flags) : ParseState → List (List Char) →
    Except Failure ParseState
  | s, [] => .ok s
  | s, arg :: args =>
    match parseArg env fl s arg with
    | .error e => .error e
    | .ok s1 => parseLoop env fl s1 args

/-- The check behind the loop (lines 328-331): the state that reaches the send
step, or "Incomplete message". -/
def finish (s : ParseState) : Except Failure ParseState :=
  if s.state ≠ parse_state.PARSE_GET_DESC ∨ s.nmsgs = 0 then .error Failure.IncompleteMessage
  else .ok s

/-- The argument parser of `main`: the loop and the check behind it. -/
def parseArgs (env : Env) (fl : Flags) (args : List (List Char)) : Except Failure ParseState :=
  match parseLoop env fl initState args with
  | .error e => .error e
  | .ok s => finish s

/-- The messages handed to the `I2C_RDWR` ioctl: `msgs[0 .. nmsgs-1]`. -/
def sentMsgs (s : ParseState) : List i2c_msg :=
  (List.range s.nmsgs).map s.msgs

/-- `parse_i2c_address` of `i2cbusses.c` as far as the examples need it: the
text is converted like `strtol(text, &end, 0)` does for a number without sign,
must be consumed whole, and the value must lie in `0x08..0x77` (`0x00..0x7f`
with `-a`). -/
def parse_i2c_address_std (text : List Char) (all_addrs : Bool) : Int :=
  let r := strtoul text
  if r.2 ≠ text.length ∨ text = [] then -1
  else if all_addrs then (if r.1 > 0x7f then -2 else (r.1 : Int))
  else if r.1 < 0x08 ∨ r.1 > 0x77 then -2 else (r.1 : Int)

/-- An environment for the examples: addresses are parsed by
`parse_i2c_address_std`, no address is busy and `malloc` never fails. -/
def stdEnv : Env :=
  { parse_i2c_address := parse_i2c_address_std
    set_slave_addr := fun _ => 0
    malloc_fails := fun _ => false }

/-- The flags of a run without `-a` and `-f`. -/
def noFlags : Flags := { all_addrs := false, force := false }

/-- The character `*end` behind the number of a DATA argument (`none` for the
terminating NUL). -/
def suffixOf (arg : List Char) : Option Char :=
  (arg.drop (strtoul arg).2).head?

/-- The function that the loop applies to `data` for a suffix character. -/
def suffixStep (c : Char) (data : Nat) : Nat :=
  if c = 'p' then nextRandom data
  else if c = '+' then (data + 1) % 256
  else if c = '-' then (data + 255) % 256
  else data

/-- The buffer in which the cells from `k` on hold `data, f data, f (f data),
...` and the cells before `k` are those of `b`. -/
def filledBy (f : Nat → Nat) (b : List Nat) (k data len : Nat) : List Nat :=
  (List.range len).map (fun j => if j < k then b.getD j 0 else f^[j - k] data)

/-- The value that the documentation of DATA promises `i` places behind the
byte `v`: `v` for `=`, `v + i` for `+`, `v - i` for `-`, modulo 256. -/
def suffixValue (c : Char) (v i : Nat) : Nat :=
  if c = '+' then (v + i) % 256
  else if c = '-' then (((v : Int) - (i : Int)) % 256).toNat
  else v

/-- The buffer that the documentation of DATA promises for a byte `v` with
suffix `c` given when `k` bytes are filled: the bytes `k .. len-1` are `v`,
`v ± 1`, `v ± 2`, ... (or all `v`), the bytes before `k` are kept. -/
def expectedBuf (c : Char) (b : List Nat) (k v len : Nat) : List Nat :=
  (List.range len).map (fun j => if j < k then b.getD j 0 else suffixValue c v (j - k))

/-- Outcome of a parse with the messages to send made visible: the failure, or
the number of messages and `msgs[0 .. nmsgs-1]`. -/
def outcome (r : Except Failure ParseState) : Except Failure (Nat × List i2c_msg) :=
  match r with
  | .error e => .error e
  | .ok s => .ok (s.nmsgs, sentMsgs s)

/-- A state of the case `PARSE_GET_DATA` for the examples: the message
`w17@0x50` is being filled and its first byte `0x42` is stored. -/
def exampleDataState : ParseState :=
  { address := 0x50, nmsgs := 0,
    msgs := setMsg (fun _ => emptyMsg) 0 ⟨0x50, 0, 17, some (0x42 :: List.replicate 16 0)⟩,
    state := parse_state.PARSE_GET_DATA, buf_idx := 1 }

/-- The address that a DESC argument carries behind `@`, as
`parse_i2c_address` reads it; `none` for a DESC without `@address` (and for a
text whose direction or length is not accepted). -/
def givenAddress (env : Env) (fl : Flags) (arg : List Char) : Option Int :=
  match parseDirLen arg with
  | .ok (_, _, _ :: q) => some (env.parse_i2c_address q fl.all_addrs)
  | _ => none

/-- Follows the claim's words: walks along the run of the argument loop and
keeps "the address of the most recent earlier DESC that carried one" (`none`
as long as no DESC carried an address).  The last argument is the value
before the first argument. -/
def lastGivenAddress (env : Env) (fl : Flags) :
    ParseState → List (List Char) → Option Int → Option Int
  | _, [], last => last
  | s, arg :: args, last =>
    match parseArg env fl s arg with
    | .error _ => last
    | .ok s1 =>
      lastGivenAddress env fl s1 args
        (if s.state = parse_state.PARSE_GET_DESC then
          (match givenAddress env fl arg with
           | some a => some a
           | none => last)
         else last)

/-- The number of data bytes a message asks for: its length for a write, 0 for
a read. -/
def need (m : i2c_msg) : Nat :=
  if m.flags &&& I2C_M_RD = 0 then m.len else 0

/-- Walks along the run of the argument loop and counts, per message index,
the data bytes that DATA arguments stored into the buffer of that message (a
DATA argument stores one byte per step of `buf_idx`).  The last argument is
the count before the first argument. -/
def receivedBytes (env : Env) (fl : Flags) :
    ParseState → List (List Char) → (Nat → Nat) → Nat → Nat
  | _, [], received => received
  | s, arg :: args, received =>
    match parseArg env fl s arg with
    | .error _ => received
    | .ok s1 =>
      receivedBytes env fl s1 args
        (if s.state = parse_state.PARSE_GET_DATA then
          (fun i => if i = s.nmsgs then received i + (s1.buf_idx - s.buf_idx) else received i)
         else received)

/-- The state of the examples behind the arguments `w1@0x50 0x64`. -/
def exampleDescState : ParseState :=
  match parseLoop stdEnv noFlags initState ["w1@0x50".toList, "0x64".toList] with
  | .ok s => s
  | .error _ => initState

/-- Outcome of a parse reduced to the stored lengths of the messages to send. -/
def storedLengths (r : Except Failure ParseState) : Except Failure (List Nat) :=
  match r with
  | .error e => .error e
  | .ok s => .ok ((sentMsgs s).map i2c_msg.len)

/-- The variable `address` holds the address of the most recent DESC that
carried one (`-1` when there was none), such an address is not negative, and
as long as no DESC carried an address no message is described. -/
def AddrInv (s : ParseState) (last : Option Int) : Prop :=
  s.address = last.getD (-1) ∧ (∀ a, last = some a → 0 ≤ a)
    ∧ (last = none → s.nmsgs = 0 ∧ s.state = parse_state.PARSE_GET_DESC)

/-- Accounting of the data bytes along a run: a message that is being filled
is a write that has received `buf_idx` bytes, fewer than its length; a
message not yet started has received nothing; every complete message has
received exactly the bytes it asks for. -/
def DataInv (s : ParseState) (received : Nat → Nat) : Prop :=
  (s.state = parse_state.PARSE_GET_DATA →
      (s.msgs s.nmsgs).flags &&& I2C_M_RD = 0 ∧ s.buf_idx < (s.msgs s.nmsgs).len
        ∧ received s.nmsgs = s.buf_idx)
    ∧ (s.state = parse_state.PARSE_GET_DESC → received s.nmsgs = 0)
    ∧ (∀ i, s.nmsgs < i → received i = 0)
    ∧ (∀ i, i < s.nmsgs → received i = need (s.msgs i))

/-- Outcome of a parse with the number of messages and one memory cell
`msgs[i]` made visible. -/
def cellAfter (r : Except Failure ParseState) (i : Nat) : Except Failure (Nat × i2c_msg) :=
  match r with
  | .error e => .error e
  | .ok s => .ok (s.nmsgs, s.msgs i)

end I2cTransfer

/-! ## C library and `int` arithmetic shared by `i2cset`, `i2cget` and the robot control -/

namespace CLib

/-- `LONG_MAX` for the 64-bit `long` of the target. -/
def LONG_MAX : Int := 2 ^ 63 - 1

/-- `LONG_MIN` for the 64-bit `long` of the target. -/
def LONG_MIN : Int := -(2 ^ 63)

/-- The C library function `strtol(s, &end, 0)`: skips white space, takes an
optional sign, detects the base from the text (`0x` hexadecimal, `0` octal,
decimal otherwise) and converts the longest run of digits.  Returns the value
and the number of characters consumed (`end = s + consumed`); no conversion
gives `(0, 0)`, that is `end == s`.  A value that does not fit is `LONG_MAX`
or `LONG_MIN`. -/
def strtol (s : List Char) : Int × Nat :=
  let ws := (s.takeWhile I2cTransfer.isspace).length
  let s1 := s.drop ws
  let sign : Bool × Nat :=
    match s1 with
    | c :: _ => if c = '-' then (true, 1) else if c = '+' then (false, 1) else (false, 0)
    | [] => (false, 0)
  let s2 := s1.drop sign.2
  let base : Nat × Nat :=
    match s2 with
    | c0 :: cx :: h :: _ =>
      if c0 = '0' ∧ (cx = 'x' ∨ cx = 'X') ∧ I2cTransfer.isDigitOf 16 h = true then (16, 2)
      else if c0 = '0' then (8, 0) else (10, 0)
    | c0 :: _ => if c0 = '0' then (8, 0) else (10, 0)
    | [] => (10, 0)
  let r := I2cTransfer.scanDigits base.1 (s2.drop base.2) 0 0
  if r.2 = 0 then (0, 0)
  else
    let v : Int :=
      if sign.1 then (if (r.1 : Int) > -LONG_MIN then LONG_MIN else -(r.1 : Int))
      else (if (r.1 : Int) > LONG_MAX then LONG_MAX else (r.1 : Int))
    (v, ws + sign.2 + base.2 + r.2)

/-- The test `*end` behind `strtol(s, &end, 0)`: true when a character is left
behind the converted number. -/
def endNotNul (s : List Char) : Bool :=
  !(s.drop (strtol s).2).isEmpty

/-- The bit pattern of a value in a 32-bit two's complement `int`. -/
def toBits (x : Int) : Nat := (x % 2 ^ 32).toNat

/-- The `int` with a given 32-bit pattern. -/
def ofBits (n : Nat) : Int :=
  if n % 2 ^ 32 < 2 ^ 31 then ((n % 2 ^ 32 : Nat) : Int) else ((n % 2 ^ 32 : Nat) : Int) - 2 ^ 32

/-- Conversion of a `long` (or of an arithmetic result) to the 32-bit `int`. -/
def toInt (v : Int) : Int := ofBits (toBits v)

/-- The C operator `&` on `int`. -/
def int_and (a b : Int) : Int := ofBits (toBits a &&& toBits b)

/-- The C operator `|` on `int`. -/
def int_or (a b : Int) : Int := ofBits (toBits a ||| toBits b)

/-- The C operator `~` on `int`. -/
def int_not (a : Int) : Int := ofBits (toBits a ^^^ (2 ^ 32 - 1))

end CLib

/-! ## `i2cset`: command line and write sequence of `main` -/

namespace I2cSet

open CLib

/-- The transaction sizes of `<linux/i2c.h>` that `i2cset` and `i2cget` use. -/
inductive smbus_size where
  | I2C_SMBUS_BYTE
  | I2C_SMBUS_BYTE_DATA
  | I2C_SMBUS_WORD_DATA
  | I2C_SMBUS_BLOCK_DATA
  | I2C_SMBUS_I2C_BLOCK_DATA
deriving DecidableEq, Repr

/-- `I2C_SMBUS_BLOCK_MAX` of `<linux/i2c.h>`: `sizeof(block)` in `main`. -/
def I2C_SMBUS_BLOCK_MAX : Nat := 32

/-- The error exits of `main` before the device is opened, named by the
message printed (`Usage` is `help(1)` without a message). -/
inductive Failure where
  | Usage
  | DataAddressInvalid
  | InvalidMode
  | PecNotSupported
  | MaskNotSupported
  | TooManyArguments
  | DataValueInvalid
  | DataValueOutOfRange
  | MaskInvalid
  | MaskOutOfRange
deriving DecidableEq, Repr

/-- What the command line handling calls and does not define itself:
`lookup_i2c_bus` and `parse_i2c_address` of `i2cbusses.c`. -/
structure Env where
  lookup_i2c_bus : List Char → Int
  parse_i2c_address : List Char → Bool → Int

/-- The variables of `main` that the command line determines. -/
structure Parsed where
  i2cbus : Int
  address : Int
  size : smbus_size
  pec : Bool
  daddress : Int
  value : Int
  vmask : Int
  block : List Nat
  len : Nat
deriving DecidableEq, Repr

/-- The mode letter of the last argument (lines 220-228). -/
def sizeOfLetter (c : Char) : Option smbus_size :=
  if c = 'b' then some smbus_size.I2C_SMBUS_BYTE_DATA
  else if c = 'w' then some smbus_size.I2C_SMBUS_WORD_DATA
  else if c = 's' then some smbus_size.I2C_SMBUS_BLOCK_DATA
  else if c = 'i' then some smbus_size.I2C_SMBUS_I2C_BLOCK_DATA
  else none

/-- The block "check for command/mode" (lines 200-247): from the arguments
behind DATA-ADDRESS to `size` and `pec`. -/
def parseMode (maskp : Option (List Char)) (rest : List (List Char)) :
    Except Failure (smbus_size × Bool) :=
  match rest with
  | [] => .ok (smbus_size.I2C_SMBUS_BYTE, false)
  | [a] =>
    if a = ['c'] ∨ a = ['c', 'p'] then .ok (smbus_size.I2C_SMBUS_BYTE, decide (a[1]? = some 'p'))
    else .ok (smbus_size.I2C_SMBUS_BYTE_DATA, false)
  | a :: b :: more =>
    let last := (a :: b :: more).getLast (by simp)
    if last.length > 2 ∨ (last.length = 2 ∧ last[1]? ≠ some 'p') then .error Failure.InvalidMode
    else
      match last.head?.bind sizeOfLetter with
      | none => .error Failure.InvalidMode
      | some size =>
        let pec := decide (last[1]? = some 'p')
        if size = smbus_size.I2C_SMBUS_BLOCK_DATA ∨ size = smbus_size.I2C_SMBUS_I2C_BLOCK_DATA then
          if pec = true ∧ size = smbus_size.I2C_SMBUS_I2C_BLOCK_DATA then
            .error Failure.PecNotSupported
          else if maskp.isSome then .error Failure.MaskNotSupported
          else if (a :: b :: more).length + 3 > I2C_SMBUS_BLOCK_MAX + 4 then
            .error Failure.TooManyArguments
          else .ok (size, pec)
        else if (a :: b :: more).length + 3 ≠ 5 then .error Failure.TooManyArguments
        else .ok (size, pec)

/-- One data value of the command line (lines 259-268 and 273-281):
`value = strtol(arg, &end, 0)` stored in an `int`, then the tests
`*end || value < 0` and `value > max`. -/
def parseValue (max : Int) (arg : List Char) : Except Failure Int :=
  let value := toInt (strtol arg).1
  if endNotNul arg = true ∨ value < 0 then .error Failure.DataValueInvalid
  else if value > max then .error Failure.DataValueOutOfRange
  else .ok value

/-- The loop over the bytes of a block write (lines 272-283). -/
def parseBlock : List (List Char) → Except Failure (List Nat)
  | [] => .ok []
  | arg :: args =>
    match parseValue 0xff arg with
    | .error e => .error e
    | .ok value =>
      match parseBlock args with
      | .error e => .error e
      | .ok block => .ok ((value % 256).toNat :: block)

/-- The block "read values from command line" (lines 251-289): `value`,
`block` and `len`. -/
def parseValues (size : smbus_size) (daddress : Int) (rest : List (List Char)) :
    Except Failure (Int × List Nat) :=
  match size with
  | smbus_size.I2C_SMBUS_BYTE => .ok (daddress, [])
  | smbus_size.I2C_SMBUS_BYTE_DATA =>
    match parseValue 0xff (rest.headD []) with
    | .error e => .error e
    | .ok value => .ok (value, [])
  | smbus_size.I2C_SMBUS_WORD_DATA =>
    match parseValue 0xffff (rest.headD []) with
    | .error e => .error e
    | .ok value => .ok (value, [])
  | _ =>
    match parseBlock rest.dropLast with
    | .error e => .error e
    | .ok block => .ok (-1, block)

/-- The block `if (maskp)` (lines 291-302): `vmask`. -/
def parseMask (size : smbus_size) (maskp : Option (List Char)) : Except Failure Int :=
  match maskp with
  | none => .ok 0
  | some m =>
    let vmask := toInt (strtol m).1
    if endNotNul m = true ∨ vmask = 0 then .error Failure.MaskInvalid
    else if ((size = smbus_size.I2C_SMBUS_BYTE ∨ size = smbus_size.I2C_SMBUS_BYTE_DATA)
        ∧ vmask > 0xff) ∨ vmask > 0xffff then .error Failure.MaskOutOfRange
    else .ok vmask

/-- The command line handling of `main` (lines 183-302), `args` being the
arguments behind the options (`argv[optind]` onwards) and `maskp` the argument
of `-m`.  An error is an exit before `open_i2c_dev`. -/
def parseCommandLine (env : Env) (all_addrs : Bool) (maskp : Option (List Char))
    (args : List (List Char)) : Except Failure Parsed :=
  match args with
  | bus :: chip :: da :: rest =>
    if env.lookup_i2c_bus bus < 0 then .error Failure.Usage
    else if env.parse_i2c_address chip all_addrs < 0 then .error Failure.Usage
    else
      let daddress := toInt (strtol da).1
      if endNotNul da = true ∨ daddress < 0 ∨ daddress > 0xff then
        .error Failure.DataAddressInvalid
      else
        match parseMode maskp rest with
        | .error e => .error e
        | .ok (size, pec) =>
          match parseValues size daddress rest with
          | .error e => .error e
          | .ok (value, block) =>
            match parseMask size maskp with
            | .error e => .error e
            | .ok vmask =>
              .ok { i2cbus := env.lookup_i2c_bus bus
                    address := env.parse_i2c_address chip all_addrs
                    size := size, pec := pec, daddress := daddress, value := value
                    vmask := vmask, block := block, len := block.length }
  | _ => .error Failure.Usage

/-- What the write sequence calls and does not define itself, each call given
by its result: `open_i2c_dev`, `check_funcs`, `set_slave_addr`, `user_ack`
(the answer to the n-th question, asked with a default), the SMBus reads of
`libi2c` (a value, or a negative error), `ioctl(file, I2C_PEC, on)` and the
SMBus write. -/
structure Device where
  open_i2c_dev : Int
  check_funcs : Int
  set_slave_addr : Int
  user_ack : Nat → Bool → Bool
  read_byte : Int
  read_word_data : Int → Int
  read_byte_data : Int → Int
  set_pec : Bool → Int
  write_result : Int

/-- What `main` does to the user and to the bus, in order. -/
inductive Event where
  | ask (dflt : Bool)
  | read_byte
  | read_word_data (command : Int)
  | read_byte_data (command : Int)
  | set_pec (enable : Bool)
  | write_byte (value : Nat)
  | write_word_data (command : Nat) (value : Nat)
  | write_block_data (command : Nat) (length : Nat) (values : List Nat)
  | write_i2c_block_data (command : Nat) (length : Nat) (values : List Nat)
  | write_byte_data (command : Nat) (value : Nat)
deriving DecidableEq, Repr

/-- Whether an event is an SMBus write. -/
def Event.isWrite : Event → Bool
  | Event.write_byte _ => true
  | Event.write_word_data _ _ => true
  | Event.write_block_data _ _ _ => true
  | Event.write_i2c_block_data _ _ _ => true
  | Event.write_byte_data _ _ => true
  | _ => false

/-- The question of `confirm` (lines 103-148): `user_ack(!dont)`, where `dont`
is set for the addresses `0x50..0x57`. -/
def confirmDefault (address : Int) : Bool :=
  !(decide (0x50 ≤ address ∧ address ≤ 0x57))

/-- The read of the old value (lines 317-326): the call and its result. -/
def readOld (dev : Device) (size : smbus_size) (daddress : Int) : Event × Int :=
  match size with
  | smbus_size.I2C_SMBUS_BYTE => (Event.read_byte, dev.read_byte)
  | smbus_size.I2C_SMBUS_WORD_DATA => (Event.read_word_data daddress, dev.read_word_data daddress)
  | _ => (Event.read_byte_data daddress, dev.read_byte_data daddress)

/-- The statement `value = (value & vmask) | (oldvalue & ~vmask);` (line 333). -/
def maskedValue (value vmask oldvalue : Int) : Int :=
  int_or (int_and value vmask) (int_and oldvalue (int_not vmask))

/-- The write call (lines 358-374); the arguments are converted to the `__u8`
and `__u16` parameters of the `libi2c` functions. -/
def writeEvent (size : smbus_size) (daddress value : Int) (len : Nat) (block : List Nat) :
    Event :=
  match size with
  | smbus_size.I2C_SMBUS_BYTE => Event.write_byte (value % 256).toNat
  | smbus_size.I2C_SMBUS_WORD_DATA =>
    Event.write_word_data (daddress % 256).toNat (value % 65536).toNat
  | smbus_size.I2C_SMBUS_BLOCK_DATA =>
    Event.write_block_data (daddress % 256).toNat (len % 256) block
  | smbus_size.I2C_SMBUS_I2C_BLOCK_DATA =>
    Event.write_i2c_block_data (daddress % 256).toNat (len % 256) block
  | smbus_size.I2C_SMBUS_BYTE_DATA =>
    Event.write_byte_data (daddress % 256).toNat (value % 256).toNat

/-- Lines 351-420 of `main`: PEC on, the write, PEC off and the read back;
returns the exit status and the events. -/
def writePhase (dev : Device) (readback : Bool) (p : Parsed) (value : Int) :
    Nat × List Event :=
  let pecOn := if p.pec then [Event.set_pec true] else []
  if p.pec = true ∧ dev.set_pec true < 0 then (1, pecOn)
  else
    let w := pecOn ++ [writeEvent p.size p.daddress value p.len p.block]
    if dev.write_result < 0 then (1, w)
    else
      let pecOff := if p.pec then w ++ [Event.set_pec false] else w
      if p.pec = true ∧ dev.set_pec false < 0 then (1, pecOff)
      else if readback = false then (0, pecOff)
      else (0, pecOff ++ [(readOld dev p.size p.daddress).1])

/-- Lines 314-349 of `main` followed by the write: with a mask the old value
is read, the value to write is merged with it, and (without `-y`) the user is
asked once more. -/
def maskPhase (dev : Device) (yes readback : Bool) (p : Parsed) (asked : Nat) :
    Nat × List Event :=
  if p.vmask ≠ 0 then
    let old := readOld dev p.size p.daddress
    if old.2 < 0 then (1, [old.1])
    else
      let value := maskedValue p.value p.vmask old.2
      if yes = false then
        if dev.user_ack asked true = false then (0, [old.1, Event.ask true])
        else
          ((writePhase dev readback p value).1,
            [old.1, Event.ask true] ++ (writePhase dev readback p value).2)
      else ((writePhase dev readback p value).1, old.1 :: (writePhase dev readback p value).2)
  else writePhase dev readback p p.value

/-- Lines 304-420 of `main`: the device is opened, the user confirms (unless
`-y`), and the write sequence runs; returns the exit status and the events. -/
def run (dev : Device) (yes readback : Bool) (p : Parsed) : Nat × List Event :=
  if dev.open_i2c_dev < 0 ∨ dev.check_funcs ≠ 0 ∨ dev.set_slave_addr ≠ 0 then (1, [])
  else if yes = false then
    if dev.user_ack 0 (confirmDefault p.address) = false then
      (0, [Event.ask (confirmDefault p.address)])
    else
      ((maskPhase dev yes readback p 1).1,
        Event.ask (confirmDefault p.address) :: (maskPhase dev yes readback p 1).2)
  else maskPhase dev yes readback p 0

/-- An environment for the examples: every bus name is bus 0 and the chip
address is read by `I2cTransfer.parse_i2c_address_std`. -/
def stdEnv : Env :=
  { lookup_i2c_bus := fun _ => 0
    parse_i2c_address := I2cTransfer.parse_i2c_address_std }

/-- A device for the examples: every call succeeds, the user answers yes, and
every register reads `0x34`. -/
def stdDevice : Device :=
  { open_i2c_dev := 3, check_funcs := 0, set_slave_addr := 0
    user_ack := fun _ _ => true
    read_byte := 0x34, read_word_data := fun _ => 0x34, read_byte_data := fun _ => 0x34
    set_pec := fun _ => 0, write_result := 0 }

/-- Outcome of the command line handling reduced to `size` and `value`. -/
def acceptedValue (r : Except Failure Parsed) : Option (smbus_size × Int) :=
  match r with
  | .error _ => none
  | .ok p => some (p.size, p.value)

/-- Outcome of the command line handling reduced to the failure. -/
def rejectedWith (r : Except Failure Parsed) : Option Failure :=
  match r with
  | .error e => some e
  | .ok _ => none

/-- The variables of the examples behind the command line
`i2cset -m 0x0f 0 0x20 0x00 0x12 b`. -/
def exampleMasked : Parsed :=
  { i2cbus := 0, address := 0x20, size := smbus_size.I2C_SMBUS_BYTE_DATA, pec := false
    daddress := 0, value := 0x12, vmask := 0x0f, block := [], len := 0 }

end I2cSet

/-! ## `i2cget`: command line, confirmation and read sequence of `main` -/

namespace I2cGet

open CLib
open I2cSet (smbus_size I2C_SMBUS_BLOCK_MAX)

/-- The error exits of `main` before the device is opened, named by the
message printed (`Usage` is `help(1)` without a message). -/
inductive Failure where
  | Usage
  | DataAddressInvalid
  | InvalidMode
  | PecNotSupported
  | LengthOnlyForBlock
  | LengthInvalid
deriving DecidableEq, Repr

/-- The variables of `main` that the command line determines. -/
structure Parsed where
  i2cbus : Int
  address : Int
  size : smbus_size
  pec : Bool
  daddress : Int
  length : Int
deriving DecidableEq, Repr

/-- The mode letter (lines 223-232). -/
def sizeOfLetter (c : Char) : Option smbus_size :=
  if c = 'b' then some smbus_size.I2C_SMBUS_BYTE_DATA
  else if c = 'w' then some smbus_size.I2C_SMBUS_WORD_DATA
  else if c = 'c' then some smbus_size.I2C_SMBUS_BYTE
  else if c = 's' then some smbus_size.I2C_SMBUS_BLOCK_DATA
  else if c = 'i' then some smbus_size.I2C_SMBUS_I2C_BLOCK_DATA
  else none

/-- Lines 210-220: DATA-ADDRESS, when given, and the size it implies. -/
def parseDataAddress (rest : List (List Char)) : Except Failure (smbus_size × Int) :=
  match rest with
  | [] => .ok (smbus_size.I2C_SMBUS_BYTE, -1)
  | da :: _ =>
    let daddress := toInt (strtol da).1
    if endNotNul da = true ∨ daddress < 0 ∨ daddress > 0xff then
      .error Failure.DataAddressInvalid
    else .ok (smbus_size.I2C_SMBUS_BYTE_DATA, daddress)

/-- Lines 222-238: MODE, when given, replaces the size and sets `pec`. -/
def parseMode (size : smbus_size) (rest : List (List Char)) :
    Except Failure (smbus_size × Bool) :=
  match rest with
  | _ :: mode :: _ =>
    match mode.head?.bind sizeOfLetter with
    | none => .error Failure.InvalidMode
    | some size1 =>
      let pec := decide (mode[1]? = some 'p')
      if size1 = smbus_size.I2C_SMBUS_I2C_BLOCK_DATA ∧ pec = true then
        .error Failure.PecNotSupported
      else .ok (size1, pec)
  | _ => .ok (size, false)

/-- Lines 240-252: LENGTH, when given. -/
def parseLength (size : smbus_size) (rest : List (List Char)) : Except Failure Int :=
  match rest with
  | _ :: _ :: l :: _ =>
    if size ≠ smbus_size.I2C_SMBUS_I2C_BLOCK_DATA then .error Failure.LengthOnlyForBlock
    else
      let length := toInt (strtol l).1
      if endNotNul l = true ∨ length < 1 ∨ length > (I2C_SMBUS_BLOCK_MAX : Int) then
        .error Failure.LengthInvalid
      else .ok length
  | _ => .ok (I2C_SMBUS_BLOCK_MAX : Int)

/-- The command line handling of `main` (lines 199-252), `args` being the
arguments behind the options (`argv[optind]` onwards).  An error is an exit
before `open_i2c_dev`. -/
def parseCommandLine (env : I2cSet.Env) (all_addrs : Bool) (args : List (List Char)) :
    Except Failure Parsed :=
  match args with
  | bus :: chip :: rest =>
    if env.lookup_i2c_bus bus < 0 then .error Failure.Usage
    else if env.parse_i2c_address chip all_addrs < 0 then .error Failure.Usage
    else
      match parseDataAddress rest with
      | .error e => .error e
      | .ok (size0, daddress) =>
        match parseMode size0 rest with
        | .error e => .error e
        | .ok (size, pec) =>
          match parseLength size rest with
          | .error e => .error e
          | .ok length =>
            .ok { i2cbus := env.lookup_i2c_bus bus
                  address := env.parse_i2c_address chip all_addrs
                  size := size, pec := pec, daddress := daddress, length := length }
  | _ => .error Failure.Usage

/-- What the read sequence calls and does not define itself, each call given
by its result: `open_i2c_dev`, `check_funcs`, `set_slave_addr`, `user_ack`
(the answer to a question asked with a default), `ioctl(file, I2C_PEC, 1)`,
and the SMBus read of the chosen size (the result of the write byte before a
read byte only decides about a warning and is left out). -/
structure Device where
  open_i2c_dev : Int
  check_funcs : Int
  set_slave_addr : Int
  user_ack : Bool → Bool
  set_pec : Int
  read_result : Int

/-- What `main` does to the user and to the bus, in order. -/
inductive Event where
  | ask (dflt : Bool)
  | set_pec
  | write_byte (value : Int)
  | read_byte
  | read_word_data (command : Int)
  | read_block_data (command : Int)
  | read_i2c_block_data (command : Int) (length : Int)
  | read_byte_data (command : Int)
deriving DecidableEq, Repr

/-- Whether an event is an SMBus read. -/
def Event.isRead : Event → Bool
  | Event.read_byte => true
  | Event.read_word_data _ => true
  | Event.read_block_data _ => true
  | Event.read_i2c_block_data _ _ => true
  | Event.read_byte_data _ => true
  | _ => false

/-- The function `confirm` (lines 114-167): its return value and the question
it asks.  PEC on an address `0x50..0x57` returns 0 without a question;
otherwise the user is asked, with default "no" for a write byte/read byte
with PEC. -/
def confirm (dev : Device) (address : Int) (size : smbus_size) (daddress : Int)
    (pec : Bool) : Bool × List Event :=
  if 0x50 ≤ address ∧ address ≤ 0x57 ∧ pec = true then (false, [])
  else
    let dont := decide (size = smbus_size.I2C_SMBUS_BYTE ∧ 0 ≤ daddress ∧ pec = true)
    (dev.user_ack (!dont), [Event.ask (!dont)])

/-- The read calls of the `switch (size)` (lines 270-290). -/
def readEvents (p : Parsed) : List Event :=
  match p.size with
  | smbus_size.I2C_SMBUS_BYTE =>
    if 0 ≤ p.daddress then [Event.write_byte p.daddress, Event.read_byte]
    else [Event.read_byte]
  | smbus_size.I2C_SMBUS_WORD_DATA => [Event.read_word_data p.daddress]
  | smbus_size.I2C_SMBUS_BLOCK_DATA => [Event.read_block_data p.daddress]
  | smbus_size.I2C_SMBUS_I2C_BLOCK_DATA => [Event.read_i2c_block_data p.daddress p.length]
  | smbus_size.I2C_SMBUS_BYTE_DATA => [Event.read_byte_data p.daddress]

/-- Lines 263-309 of `main`: PEC on, the read, the exit status. -/
def readPhase (dev : Device) (p : Parsed) : Nat × List Event :=
  let pecOn := if p.pec then [Event.set_pec] else []
  if p.pec = true ∧ dev.set_pec < 0 then (1, pecOn)
  else if dev.read_result < 0 then (2, pecOn ++ readEvents p)
  else (0, pecOn ++ readEvents p)

/-- Lines 254-309 of `main`: the device is opened, `confirm` is called unless
`-y` was given, and the read sequence runs; returns the exit status and the
events. -/
def run (dev : Device) (yes : Bool) (p : Parsed) : Nat × List Event :=
  if dev.open_i2c_dev < 0 ∨ dev.check_funcs ≠ 0 ∨ dev.set_slave_addr ≠ 0 then (1, [])
  else if yes = false then
    if (confirm dev p.address p.size p.daddress p.pec).1 = false then
      (0, (confirm dev p.address p.size p.daddress p.pec).2)
    else
      ((readPhase dev p).1, (confirm dev p.address p.size p.daddress p.pec).2 ++ (readPhase dev p).2)
  else readPhase dev p

/-- The program from the arguments behind the options on: the command line
handling, then the run on the device (a command line error exits with status
1 before the device is opened). -/
def main (env : I2cSet.Env) (dev : Device) (all_addrs yes : Bool) (args : List (List Char)) :
    Nat × List Event :=
  match parseCommandLine env all_addrs args with
  | .error _ => (1, [])
  | .ok p => run dev yes p

/-- A device for the examples: every call succeeds, the user answers yes, and
the register reads `0x34`. -/
def stdDevice : Device :=
  { open_i2c_dev := 3, check_funcs := 0, set_slave_addr := 0, user_ack := fun _ => true
    set_pec := 0, read_result := 0x34 }

/-- The command line of the examples: `i2cget 0 0x50 0x00 bp`, a byte read
with PEC from the EEPROM address `0x50`. -/
def eepromPecArgs : List (List Char) :=
  ["0".toList, "0x50".toList, "0x00".toList, "bp".toList]

end I2cGet

/-! ## Robot control: `controlLoop` (`robot/src/control.cpp`) -/

namespace Robot

open CLib

/-- One entry of `result.results`.  The declaration of `detect_result_t` is
in `common.h`, outside the available sources; the fields that `controlLoop`
reads are taken as `int`, like the locals they are assigned to. -/
structure detect_result_t where
  x1 : Int
  y1 : Int
  x2 : Int
  y2 : Int
  trackID : Int
  classID : Int
deriving DecidableEq, Repr

/-- The function `deadBand` (lines 37-42). -/
def deadBand (val min max : Int) : Int :=
  if val < max ∧ val > min then 0 else val

/-- The calls that `controlLoop` makes on `chassis`, with the `int` arguments
handed to `follow`. -/
inductive ChassisCall where
  | follow (x h : Int)
  | handle
deriving DecidableEq, Repr

/-- The expression `(det_result.x1 + det_result.x2) / 2 - NET_INPUTWIDTH / 2`
(line 50) in `int` arithmetic: division truncates, results are 32-bit. -/
def xOffset (NET_INPUTWIDTH : Int) (d : detect_result_t) : Int :=
  toInt (Int.tdiv (toInt (d.x1 + d.x2)) 2 - Int.tdiv NET_INPUTWIDTH 2)

/-- The value of `h` behind `h -= 320` (lines 53 and 59) in `int` arithmetic. -/
def hOffset (d : detect_result_t) : Int :=
  toInt (toInt (d.y2 - d.y1) - 320)

/-- The loop `for (auto det_result: result.results)` (lines 48-65): the calls
of `chassis.follow`, in order. -/
def scanResults (NET_INPUTWIDTH : Int) (id : Int) : List detect_result_t → List ChassisCall
  | [] => []
  | d :: ds =>
    if d.trackID = id then
      [ChassisCall.follow (deadBand (xOffset NET_INPUTWIDTH d) (-100) 100)
        (deadBand (hOffset d) (-50) 50)]
    else ChassisCall.follow 0 0 :: scanResults NET_INPUTWIDTH id ds

/-- The variables that `controlLoop` reads and writes: its static `id`, and
`result.count` and `result.results` of the shared detection result. -/
structure ControlState where
  id : Int
  count : Int
  results : List detect_result_t
deriving DecidableEq, Repr

/-- The function `controlLoop` (lines 44-73): the new state and the calls on
`chassis`.  `entered` is the number that `std::cin >> id` reads when no id is
selected yet. -/
def controlLoop (NET_INPUTWIDTH : Int) (entered : Int) (s : ControlState) :
    ControlState × List ChassisCall :=
  if s.id ≠ -1 then
    if s.count ≠ 0 then
      ({ s with count := 0 },
        scanResults NET_INPUTWIDTH s.id s.results ++ [ChassisCall.handle])
    else (s, [])
  else ({ s with id := entered }, [])

/-- A detection result for the examples: track 3 comes first, track 7 is at
the boxes `(200, 100)-(400, 500)` and, later, `(0, 0)-(10, 10)`. -/
def exampleResults : List detect_result_t :=
  [ ⟨10, 20, 50, 90, 3, 0⟩, ⟨200, 100, 400, 500, 7, 0⟩, ⟨0, 0, 10, 10, 7, 0⟩ ]

end Robot

/-! ## Theorems: frame reorder buffer -/

namespace ReorderBuffer

theorem take_next_index (b b' : Buffer) (r : PipelineResult)
    (h : take_next b = some (r, b')) :
    r.frame_index = b.next_expected ∧ b'.next_expected = b.next_expected + 1 := by
  unfold take_next at h
  split at h
  · simp at h
  · rename_i r0 hfind
    have hp := List.find?_some hfind
    simp only [Option.some.injEq, Prod.mk.injEq] at h
    obtain ⟨h1, h2⟩ := h
    subst h1 h2
    exact ⟨by simpa using hp, rfl⟩

theorem submit_next_expected (b : Buffer) (r : PipelineResult) :
    (submit b r).1.next_expected = b.next_expected := by
  unfold submit
  split_ifs <;> rfl

theorem run_released_indices (ops : List Op) :
    ∀ b : Buffer, ((run b ops).2).map PipelineResult.frame_index
      = List.range' b.next_expected (run b ops).2.length := by
  induction ops with
  | nil => intro b; simp [run]
  | cons op ops ih =>
    intro b
    cases op with
    | submit r =>
      simp only [run]
      rw [ih, submit_next_expected]
    | take =>
      simp only [run]
      cases hn : take_next b with
      | none => simpa using ih b
      | some p =>
        obtain ⟨r, b'⟩ := p
        obtain ⟨h1, h2⟩ := take_next_index b b' r hn
        simp only [List.map_cons, List.length_cons, List.range'_succ]
        rw [ih b', h1, h2]

/-- C1: for every interleaving of `submit` and `take_next` calls, the results
handed out by the successive `take_next` calls carry the frame indices
`next_expected, next_expected + 1, ...` of the starting buffer: strictly
increasing, without a gap and without a duplicate. -/
theorem C1_take_next_in_order (b : Buffer) (ops : List Op) :
    ((run b ops).2).map PipelineResult.frame_index
        = List.range' b.next_expected (run b ops).2.length
      ∧ List.Pairwise (fun i j => i < j) (((run b ops).2).map PipelineResult.frame_index)
      ∧ (((run b ops).2).map PipelineResult.frame_index).Nodup := by
  have h := run_released_indices ops b
  refine ⟨h, ?_, ?_⟩
  · rw [h]; exact List.pairwise_lt_range' _ _
  · rw [h]; exact List.nodup_range' _ _

/-- An out-of-order run: the workers finish frames 2, 0, 1 in that order, a
duplicate of frame 0 arrives late, and the consumer still receives 0, 1, 2. -/
theorem run_out_of_order_example :
    ((run ⟨0, [], 4⟩
        [Op.submit ⟨2, [7]⟩, Op.take, Op.submit ⟨0, [5]⟩, Op.take,
         Op.submit ⟨0, [9]⟩, Op.take, Op.submit ⟨1, [6]⟩, Op.take, Op.take]).2)
      = [⟨0, [5]⟩, ⟨1, [6]⟩, ⟨2, [7]⟩] := by
  decide

end ReorderBuffer

/-! ## Theorems: tracker life cycle -/

namespace DeepSort

theorem stepTrack_id (t : tracker) (res : TRACHER_MATCHD) (tr : Track) :
    (stepTrack t res tr).track_id = tr.track_id := by
  unfold stepTrack Track.update Track.mark_missed
  split_ifs <;> rfl

theorem find_none_of_not_mem (l : List Track) (f : Track → Track) (P : Track → Bool)
    (hf : ∀ tr, (f tr).track_id = tr.track_id) (id : Nat)
    (h : id ∉ l.map Track.track_id) :
    ((l.map f).filter P).find? (fun tr => tr.track_id == id) = none := by
  rw [List.find?_eq_none]
  intro x hx
  rw [List.mem_filter, List.mem_map] at hx
  obtain ⟨⟨a, ha, rfl⟩, -⟩ := hx
  simp only [beq_iff_eq, hf]
  intro hid
  exact h (List.mem_map.2 ⟨a, ha, hid⟩)

theorem find_map_filter (f : Track → Track) (P : Track → Bool)
    (hf : ∀ tr, (f tr).track_id = tr.track_id) (id : Nat) :
    ∀ l : List Track, (l.map Track.track_id).Nodup →
      ((l.map f).filter P).find? (fun tr => tr.track_id == id)
        = (l.find? (fun tr => tr.track_id == id)).bind
            (fun tr => if P (f tr) then some (f tr) else none) := by
  intro l
  induction l with
  | nil => intro _; rfl
  | cons a l ih =>
    intro hnd
    rw [List.map_cons, List.nodup_cons] at hnd
    obtain ⟨hnot, hnd⟩ := hnd
    by_cases hid : a.track_id = id
    · subst hid
      by_cases hP : P (f a) = true
      · simp [List.filter_cons, hP, List.find?_cons, hf]
      · have := find_none_of_not_mem l f P hf a.track_id hnot
        simp [List.filter_cons, hP, List.find?_cons, this]
    · have hbeq : (a.track_id == id) = false := by simpa using hid
      by_cases hP : P (f a) = true
      · simp [List.filter_cons, hP, List.find?_cons, hf, hbeq, ih hnd]
      · simp [List.filter_cons, hP, List.find?_cons, hbeq, ih hnd]


theorem stepped_ids (t : tracker) (res : TRACHER_MATCHD) :
    (t.tracks.map (stepTrack t res)).map Track.track_id = t.tracks.map Track.track_id := by
  rw [List.map_map]
  apply List.map_congr_left
  intro a _
  exact stepTrack_id t res a

theorem update_tracks (t : tracker) (res : TRACHER_MATCHD) :
    (t.update res).tracks
      = ((t.tracks.map (stepTrack t res)) ++
          (List.range res.unmatched_detections.length).map
            (fun j => _initiate_track (t._next_idx + j))).filter
          (fun tr => tr.state ≠ TrackState.Deleted) := rfl

theorem update_next_idx (t : tracker) (res : TRACHER_MATCHD) :
    (t.update res)._next_idx = t._next_idx + res.unmatched_detections.length := rfl

theorem update_params (t : tracker) (res : TRACHER_MATCHD) :
    (t.update res).max_age = t.max_age ∧ (t.update res).n_init = t.n_init := ⟨rfl, rfl⟩

theorem WF_update (t : tracker) (res : TRACHER_MATCHD) (h : t.WF) : (t.update res).WF := by
  obtain ⟨hnd, hlt⟩ := h
  constructor
  · rw [update_tracks]
    refine List.Nodup.sublist (List.Sublist.map _ (List.filter_sublist _)) ?_
    rw [List.map_append, stepped_ids, List.map_map]
    refine List.Nodup.append hnd ?_ ?_
    · refine (List.nodup_range _).map ?_
      intro a b hab
      simp only [Function.comp, _initiate_track] at hab
      omega
    · intro x hx1 hx2
      rw [List.mem_map] at hx1 hx2
      obtain ⟨a, ha, rfl⟩ := hx1
      obtain ⟨j, -, hj⟩ := hx2
      have := hlt a ha
      simp only [Function.comp, _initiate_track] at hj
      omega
  · intro tr htr
    rw [update_tracks, List.mem_filter, List.mem_append, List.mem_map, List.mem_map] at htr
    rw [update_next_idx]
    obtain ⟨h1 | h1, -⟩ := htr
    · obtain ⟨a, ha, rfl⟩ := h1
      have := hlt a ha
      rw [stepTrack_id]; omega
    · obtain ⟨j, hj, rfl⟩ := h1
      rw [List.mem_range] at hj
      simp only [_initiate_track]; omega

theorem find_update (t : tracker) (res : TRACHER_MATCHD) (id : Nat) (h : t.WF)
    (hid : id < t._next_idx) :
    (t.update res).find id = (t.find id).bind (fun tr =>
      if (stepTrack t res tr).state ≠ TrackState.Deleted then some (stepTrack t res tr)
      else none) := by
  unfold tracker.find
  rw [update_tracks, List.filter_append, List.find?_append]
  have hborn : (List.filter (fun tr => decide (tr.state ≠ TrackState.Deleted))
      ((List.range res.unmatched_detections.length).map
        (fun j => _initiate_track (t._next_idx + j)))).find? (fun tr => tr.track_id == id)
      = none := by
    rw [List.find?_eq_none]
    intro x hx
    rw [List.mem_filter, List.mem_map] at hx
    obtain ⟨⟨j, -, rfl⟩, -⟩ := hx
    simp only [_initiate_track, beq_iff_eq]
    omega
  rw [hborn, Option.or_none]
  rw [find_map_filter (stepTrack t res) _ (stepTrack_id t res) id t.tracks h.1]
  congr 1
  funext tr
  simp

theorem find_lt (t : tracker) (id : Nat) (tr : Track) (h : t.WF) (hf : t.find id = some tr) :
    id < t._next_idx ∧ tr.track_id = id := by
  unfold tracker.find at hf
  have h1 := List.find?_some hf
  have h2 := List.mem_of_find?_eq_some hf
  simp only [beq_iff_eq] at h1
  exact ⟨h1 ▸ h.2 tr h2, h1⟩


theorem run_cons (t : tracker) (r : TRACHER_MATCHD) (rs : List TRACHER_MATCHD) :
    t.run (r :: rs) = (t.update r).run rs := rfl

theorem run_params (rs : List TRACHER_MATCHD) :
    ∀ t : tracker, (t.run rs).max_age = t.max_age ∧ (t.run rs).n_init = t.n_init := by
  induction rs with
  | nil => intro t; exact ⟨rfl, rfl⟩
  | cons r rs ih => intro t; rw [run_cons]; exact ih (t.update r)

theorem find_none_run (id : Nat) (rs : List TRACHER_MATCHD) :
    ∀ t : tracker, t.WF → id < t._next_idx → t.find id = none → (t.run rs).find id = none := by
  induction rs with
  | nil => intro t _ _ h; exact h
  | cons r rs ih =>
    intro t hwf hlt h
    rw [run_cons]
    refine ih (t.update r) (WF_update t r hwf) ?_ ?_
    · rw [update_next_idx]; omega
    · rw [find_update t r id hwf hlt, h]; rfl

theorem stepTrack_missed (t : tracker) (res : TRACHER_MATCHD) (tr : Track)
    (h : Missed tr.track_id res) : stepTrack t res tr = tr.mark_missed t.max_age := by
  unfold stepTrack
  rw [if_neg h.1, if_pos h.2]

theorem stepTrack_matched (t : tracker) (res : TRACHER_MATCHD) (tr : Track)
    (h : Matched tr.track_id res) : stepTrack t res tr = tr.update t.n_init := by
  unfold stepTrack
  exact if_pos h

theorem confirmed_misses (id : Nat) (rs : List TRACHER_MATCHD) :
    ∀ (t : tracker) (tr : Track), t.WF → t.find id = some tr →
      tr.state = TrackState.Confirmed → (∀ r ∈ rs, Missed id r) →
      (tr.time_since_update : Int) ≤ t.max_age →
      (t.run rs).find id =
        if ((tr.time_since_update + rs.length : Nat) : Int) ≤ t.max_age
        then some { tr with time_since_update := tr.time_since_update + rs.length }
        else none := by
  induction rs with
  | nil =>
    intro t tr _ hf _ _ hle
    simp only [List.length_nil, Nat.add_zero]
    rw [if_pos hle]
    exact hf
  | cons r rs ih =>
    intro t tr hwf hf hst hall hle
    obtain ⟨hlt, hid⟩ := find_lt t id tr hwf hf
    have hmiss : Missed tr.track_id r := hid ▸ hall r (List.mem_cons_self _ _)
    have hall2 : ∀ r ∈ rs, Missed id r := fun x hx => hall x (List.mem_cons_of_mem _ hx)
    have hfu := find_update t r id hwf hlt
    rw [hf, Option.some_bind, stepTrack_missed t r tr hmiss] at hfu
    rw [run_cons]
    by_cases hnext : ((tr.time_since_update + 1 : Nat) : Int) ≤ t.max_age
    · have hstate : (tr.mark_missed t.max_age).state = TrackState.Confirmed := by
        simp only [Track.mark_missed, hst]
        rw [if_neg (by decide), if_neg]
        intro hc; exact absurd hnext (not_le.2 hc.2)
      rw [if_pos (by rw [hstate]; decide)] at hfu
      have := ih (t.update r) (tr.mark_missed t.max_age) (WF_update t r hwf) hfu hstate hall2
        (by simpa [Track.mark_missed] using hnext)
      rw [this]
      simp only [Track.mark_missed, update_params, List.length_cons]
      have e : tr.time_since_update + 1 + rs.length = tr.time_since_update + (rs.length + 1) := by
        omega
      rw [e]
      have hn2 : ¬ t.max_age < (tr.time_since_update : Int) + 1 := by
        push_cast at hnext; omega
      simp [hst, hn2]
    · have hstate : (tr.mark_missed t.max_age).state = TrackState.Deleted := by
        simp only [Track.mark_missed, hst]
        rw [if_neg (by decide), if_pos ⟨by decide, not_le.1 hnext⟩]
      rw [if_neg (by rw [hstate]; decide)] at hfu
      have hn := find_none_run id rs (t.update r) (WF_update t r hwf)
        (by rw [update_next_idx]; omega) hfu
      rw [hn, if_neg]
      rw [List.length_cons]
      push_cast at hnext ⊢
      omega


theorem iterate_update (n_init : Int) (tr : Track) (h : tr.state = TrackState.Tentative) :
    ∀ k : Nat, (Track.update n_init)^[k] tr =
      { tr with
        hits := tr.hits + k
        time_since_update := if k = 0 then tr.time_since_update else 0
        state := if 1 ≤ k ∧ n_init ≤ ((tr.hits + k : Nat) : Int)
                 then TrackState.Confirmed else TrackState.Tentative } := by
  intro k
  induction k with
  | zero => cases tr; simp_all
  | succ k ih =>
    rw [Function.iterate_succ_apply', ih]
    simp only [Track.update, Nat.add_assoc, Nat.succ_ne_zero, if_false, Track.mk.injEq,
      true_and]
    push_cast
    split_ifs <;> first | rfl | (exfalso; simp_all; done) | (exfalso; simp_all; omega)

theorem update_not_deleted (n_init : Int) (tr : Track) (h : tr.state ≠ TrackState.Deleted) :
    (tr.update n_init).state ≠ TrackState.Deleted := by
  simp only [Track.update]
  split_ifs
  · decide
  · exact h

theorem matched_run (id : Nat) (rs : List TRACHER_MATCHD) :
    ∀ (t : tracker) (tr : Track), t.WF → t.find id = some tr →
      tr.state ≠ TrackState.Deleted → (∀ r ∈ rs, Matched id r) →
      (t.run rs).find id = some ((Track.update t.n_init)^[rs.length] tr) := by
  induction rs with
  | nil => intro t tr _ hf _ _; exact hf
  | cons r rs ih =>
    intro t tr hwf hf hst hall
    obtain ⟨hlt, hid⟩ := find_lt t id tr hwf hf
    have hm : Matched tr.track_id r := hid ▸ hall r (List.mem_cons_self _ _)
    have hfu := find_update t r id hwf hlt
    rw [hf, Option.some_bind, stepTrack_matched t r tr hm,
      if_pos (update_not_deleted _ _ hst)] at hfu
    rw [run_cons, ih (t.update r) _ (WF_update t r hwf) hfu (update_not_deleted _ _ hst)
      (fun x hx => hall x (List.mem_cons_of_mem _ hx))]
    rw [List.length_cons, Function.iterate_succ_apply, (update_params t r).2]

theorem reported_eq (t : tracker) (id : Nat) (h : t.WF) :
    t.reported id = (t.find id).bind
      (fun tr => if tr.state = TrackState.Confirmed then some tr else none) := by
  unfold tracker.reported tracker.output tracker.find
  have := find_map_filter (fun x => x) (fun tr => decide (tr.state = TrackState.Confirmed))
    (fun _ => rfl) id t.tracks h.1
  rw [List.map_id'] at this
  rw [this]
  congr 1
  funext tr
  simp

theorem WF_run (rs : List TRACHER_MATCHD) : ∀ t : tracker, t.WF → (t.run rs).WF := by
  induction rs with
  | nil => intro t h; exact h
  | cons r rs ih => intro t h; rw [run_cons]; exact ih _ (WF_update t r h)

/-- C2 (as amended): in a tracker with unique track ids, a live track that is
still `Tentative` and is unmatched in a cycle is gone from the live set after
that single miss; a `Confirmed` track that was just matched and is then
unmatched in every cycle stays live, `Confirmed`, while the number of
consecutive misses is at most `max_age`, and is gone from the live set from
miss number `max_age + 1` on (not already at miss number `max_age`). -/
theorem C2_track_deletion (t : tracker) (id : Nat) (tr : Track)
    (hwf : t.WF) (hfind : t.find id = some tr) :
    (tr.state = TrackState.Tentative →
        ∀ res, Missed id res → (t.update res).find id = none) ∧
    (tr.state = TrackState.Confirmed → tr.time_since_update = 0 → 0 ≤ t.max_age →
        ∀ rs : List TRACHER_MATCHD, (∀ r ∈ rs, Missed id r) →
          (t.run rs).find id =
            if (rs.length : Int) ≤ t.max_age
            then some { tr with time_since_update := rs.length }
            else none) := by
  obtain ⟨hlt, hid⟩ := find_lt t id tr hwf hfind
  constructor
  · intro hst res hmiss
    rw [find_update t res id hwf hlt, hfind, Option.some_bind,
      stepTrack_missed t res tr (hid ▸ hmiss)]
    simp [Track.mark_missed, hst]
  · intro hst htsu hage rs hall
    have := confirmed_misses id rs t tr hwf hfind hst hall (by rw [htsu]; exact hage)
    rw [this, htsu]
    simp

/-- C3 (as amended): every track that a cycle creates starts `Tentative`
with hit counter 1 (the detection that created it); such a track, matched in
every following cycle, is in the tracker output after `k` matches exactly when
`k ≥ 1` and `k + 1 ≥ n_init`: it first appears in the cycle of its
`max 1 (n_init - 1)`-th match, when its hit counter reaches `n_init`, and in no
earlier cycle. -/
theorem C3_confirmation (t : tracker) (id : Nat) (tr : Track)
    (hwf : t.WF) (hfind : t.find id = some tr)
    (hnew : tr.state = TrackState.Tentative ∧ tr.hits = 1)
    (rs : List TRACHER_MATCHD) (hall : ∀ r ∈ rs, Matched id r) :
    (∀ res, ∀ x ∈ (t.update res).tracks, t._next_idx ≤ x.track_id →
        x = _initiate_track x.track_id) ∧
    (((t.run rs).reported id).isSome ↔ (1 ≤ rs.length ∧ t.n_init ≤ (rs.length : Int) + 1)) := by
  constructor
  · intro res x hx hge
    rw [update_tracks, List.mem_filter, List.mem_append, List.mem_map, List.mem_map] at hx
    obtain ⟨h1 | h1, -⟩ := hx
    · obtain ⟨a, ha, rfl⟩ := h1
      have := hwf.2 a ha
      rw [stepTrack_id] at hge; omega
    · obtain ⟨j, -, rfl⟩ := h1
      rfl
  · rw [reported_eq _ _ (WF_run rs t hwf),
      matched_run id rs t tr hwf hfind (by rw [hnew.1]; decide) hall,
      iterate_update _ _ hnew.1, hnew.2]
    simp only [Option.some_bind]
    have e : t.n_init ≤ ((1 + rs.length : Nat) : Int) ↔ t.n_init ≤ (rs.length : Int) + 1 := by
      push_cast; omega
    by_cases hc : 1 ≤ rs.length ∧ t.n_init ≤ (rs.length : Int) + 1
    · have hc1 : 1 ≤ rs.length ∧ t.n_init ≤ ((1 + rs.length : Nat) : Int) := ⟨hc.1, e.2 hc.2⟩
      rw [if_pos hc1, if_pos rfl]
      exact ⟨fun _ => hc, fun _ => rfl⟩
    · have hc1 : ¬ (1 ≤ rs.length ∧ t.n_init ≤ ((1 + rs.length : Nat) : Int)) :=
        fun h => hc ⟨h.1, e.1 h.2⟩
      rw [if_neg hc1, if_neg (by decide)]
      exact ⟨fun h => absurd h (by simp), fun h => absurd h hc⟩

/-- Witness for C2: track 1, confirmed with `max_age = 2`, then missed three
times in a row. -/
theorem C2_track_deletion_witness :
    (emptyTracker.run [oneNewDetection, matchTrack1]).WF
      ∧ (emptyTracker.run [oneNewDetection, matchTrack1]).find 1
          = some ⟨1, 2, 0, TrackState.Confirmed⟩
      ∧ ((emptyTracker.run [oneNewDetection, matchTrack1]).run
            [missTrack1, missTrack1, missTrack1]).find 1
          = if ((3 : Nat) : Int) ≤ 2
            then some ⟨1, 2, 3, TrackState.Confirmed⟩ else none :=
  ⟨by decide, by decide,
    (C2_track_deletion (emptyTracker.run [oneNewDetection, matchTrack1]) 1
      ⟨1, 2, 0, TrackState.Confirmed⟩ (by decide) (by decide)).2 rfl rfl (by decide)
      [missTrack1, missTrack1, missTrack1] (by decide)⟩

/-- Counterexample to C2 as stated: with `max_age = 2` (and `n_init = 2`) the
confirmed track 1 is still live and `Confirmed`, and still in the tracker
output, after `max_age = 2` consecutive misses; it is deleted by the third
miss. -/
theorem C2_counterexample :
    (emptyTracker.run [oneNewDetection, matchTrack1]).find 1
        = some ⟨1, 2, 0, TrackState.Confirmed⟩
      ∧ (emptyTracker.run [oneNewDetection, matchTrack1, missTrack1, missTrack1]).find 1
        = some ⟨1, 2, 2, TrackState.Confirmed⟩
      ∧ (emptyTracker.run [oneNewDetection, matchTrack1, missTrack1, missTrack1]).output
        = [⟨1, 2, 2, TrackState.Confirmed⟩]
      ∧ (emptyTracker.run
          [oneNewDetection, matchTrack1, missTrack1, missTrack1, missTrack1]).find 1 = none := by
  decide

/-- Witness for C3: track 1 of a tracker with `n_init = 2`, created by the
first frame and matched once. -/
theorem C3_confirmation_witness :
    (emptyTracker.run [oneNewDetection]).WF
      ∧ (emptyTracker.run [oneNewDetection]).find 1 = some (_initiate_track 1)
      ∧ ((((emptyTracker.run [oneNewDetection]).run [matchTrack1]).reported 1).isSome
          ↔ (1 ≤ [matchTrack1].length
              ∧ (emptyTracker.run [oneNewDetection]).n_init
                  ≤ ([matchTrack1].length : Int) + 1)) :=
  ⟨by decide, by decide,
    (C3_confirmation (emptyTracker.run [oneNewDetection]) 1 (_initiate_track 1)
      (by decide) (by decide) (by decide) [matchTrack1] (by decide)).2⟩

/-- Counterexample to C3 as stated: with `n_init = 2` the track created by the
first frame is in the tracker output of the second frame, after one match (not
`n_init = 2` matches); and with `n_init = 1` it first appears there with hit
counter 2 (not `n_init = 1`), the cycle of creation reporting nothing. -/
theorem C3_counterexample :
    (emptyTracker.run [oneNewDetection]).output = []
      ∧ (emptyTracker.run [oneNewDetection, matchTrack1]).output
          = [⟨1, 2, 0, TrackState.Confirmed⟩]
      ∧ emptyTracker.n_init = 2
      ∧ ((tracker.mk 2 1 1 []).run [oneNewDetection]).output = []
      ∧ ((tracker.mk 2 1 1 []).run [oneNewDetection, matchTrack1]).output
          = [⟨1, 2, 0, TrackState.Confirmed⟩] := by
  decide

/-- The end-to-end scenario of the spec (five frames with one detection each,
`n_init = 2`): nothing is reported at frame 1, track 1 is confirmed at frame 2
and reported through frame 5. -/
theorem end_to_end_scenario :
    (emptyTracker.run [oneNewDetection]).output = []
      ∧ ((emptyTracker.run [oneNewDetection, matchTrack1]).output).map Track.track_id = [1]
      ∧ ((emptyTracker.run [oneNewDetection, matchTrack1, matchTrack1, matchTrack1,
            matchTrack1]).output) = [⟨1, 5, 0, TrackState.Confirmed⟩] := by
  decide

end DeepSort

/-! ## Theorems: threads started by `main` -/

namespace Pipeline

/-- C5 (as amended): `main` starts five threads: three inference workers
(`detect_process`) with the numbers 0, 1, 2, all three given the same NPU core
`RKNN_NPU_CORE_0`, one capture thread `videoRead` (number 6) and one writer
thread `videoWrite` (number 7). -/
theorem C5_thread_set :
    threads.length = thread_num
      ∧ captureThreads threads = [ThreadSpec.videoRead 6]
      ∧ writerThreads threads = [ThreadSpec.videoWrite 7]
      ∧ workerNumbers threads = [0, 1, 2]
      ∧ (workerNumbers threads).Nodup
      ∧ (workerCores threads).length = 3
      ∧ ∀ c ∈ workerCores threads, c = rknn_core_mask.RKNN_NPU_CORE_0 := by
  decide

/-- Counterexample to C5 as stated: the first two inference workers are given
the same NPU core, so the cores of the workers are not pairwise distinct. -/
theorem C5_counterexample :
    threads.get? 0 = some (ThreadSpec.detect_process 0 rknn_core_mask.RKNN_NPU_CORE_0)
      ∧ threads.get? 1 = some (ThreadSpec.detect_process 1 rknn_core_mask.RKNN_NPU_CORE_0)
      ∧ ¬ (workerCores threads).Nodup := by
  decide

end Pipeline

/-! ## Theorems: `i2ctransfer` -/

namespace I2cTransfer

theorem filledBy_length (f : Nat → Nat) (b : List Nat) (k data len : Nat) :
    (filledBy f b k data len).length = len := by
  simp [filledBy]

theorem dataLoop_none (len n : Nat) (buf : List Nat) (idx data : Nat) (h : idx < len) :
    dataLoop none len (n + 1) buf idx data = .ok (buf.set idx data, idx + 1) := by
  simp [dataLoop, h]

theorem dataLoop_suffix (c : Char) (hc : c = 'p' ∨ c = '+' ∨ c = '-' ∨ c = '=') (len : Nat) :
    ∀ (n : Nat) (buf : List Nat) (idx data : Nat), buf.length = len → n = len - idx →
      idx ≤ len →
      dataLoop (some c) len n buf idx data
        = .ok (filledBy (suffixStep c) buf idx data len, len) := by
  intro n
  induction n with
  | zero =>
    intro buf idx data hlen hn hle
    have hidx : idx = len := by omega
    subst hidx
    simp only [dataLoop]
    congr 2
    apply List.ext_getElem
    · rw [filledBy_length, hlen]
    · intro j h1 h2
      rw [filledBy_length] at h2
      simp [filledBy, h2, List.getD_eq_getElem?_getD, List.getElem?_eq_getElem h1]
  | succ n ih =>
    intro buf idx data hlen hn hle
    have hlt : idx < len := by omega
    have hrec := ih (buf.set idx data) (idx + 1) (suffixStep c data)
      (by rw [List.length_set, hlen]) (by omega) (by omega)
    have hstep : dataLoop (some c) len (n + 1) buf idx data
        = dataLoop (some c) len n (buf.set idx data) (idx + 1) (suffixStep c data) := by
      simp only [dataLoop, if_pos hlt, suffixStep]
      rcases hc with h | h | h | h <;> subst h <;> simp
    rw [hstep, hrec]
    congr 2
    apply List.ext_getElem
    · rw [filledBy_length, filledBy_length]
    · intro j h1 h2
      rw [filledBy_length] at h1
      simp only [filledBy, List.getElem_map, List.getElem_range]
      by_cases hj : j < idx
      · have hj1 : j < idx + 1 := by omega
        rw [if_pos hj, if_pos hj1]
        simp [List.getD_eq_getElem?_getD, List.getElem?_set, show idx ≠ j by omega]
      · rw [if_neg hj]
        by_cases hj2 : j = idx
        · subst hj2
          rw [if_pos (by omega)]
          simp [List.getD_eq_getElem?_getD, List.getElem?_set, hlen, hlt]
        · rw [if_neg (by omega)]
          have e : j - idx = (j - (idx + 1)) + 1 := by omega
          rw [e, Function.iterate_succ_apply]

theorem iterate_suffixStep (c : Char) (hc : c = '=' ∨ c = '+' ∨ c = '-') (v : Nat)
    (hv : v ≤ 255) : ∀ i : Nat, (suffixStep c)^[i] v = suffixValue c v i := by
  intro i
  induction i with
  | zero =>
    rcases hc with h | h | h <;> subst h <;> simp [suffixValue] <;> omega
  | succ i ih =>
    rw [Function.iterate_succ_apply', ih]
    rcases hc with h | h | h <;> subst h <;> simp [suffixValue, suffixStep] <;> omega

theorem filledBy_eq_expectedBuf (c : Char) (hc : c = '=' ∨ c = '+' ∨ c = '-') (b : List Nat)
    (k v len : Nat) (hv : v ≤ 255) :
    filledBy (suffixStep c) b k v len = expectedBuf c b k v len := by
  unfold filledBy expectedBuf
  apply List.map_congr_left
  intro j _
  rw [iterate_suffixStep c hc v hv]

/-- C6: a DATA argument with value `v` in 0..255, read when `k` bytes of a
write message of length LENGTH are filled: without a suffix it sets exactly
the byte `k` to `v` (and completes the message when `k + 1 = LENGTH`); with
suffix `=`, `+` or `-` it sets the bytes `k .. LENGTH-1` to `v, v, ...` /
`v, v+1, ...` / `v, v-1, ...` modulo 256 and completes the message.  The
arguments `w17@0x50 0x42 0xff-` give the 17 bytes `0x42, 0xff, 0xfe, ..., 0xf0`. -/
theorem C6_data_suffix (env : Env) (fl : Flags) (s : ParseState) (arg : List Char)
    (b : List Nat)
    (hstate : s.state = parse_state.PARSE_GET_DATA)
    (hn : s.nmsgs ≤ I2C_RDRW_IOCTL_MAX_MSGS)
    (hbuf : (s.msgs s.nmsgs).buf = some b)
    (hlen : b.length = (s.msgs s.nmsgs).len)
    (hk : s.buf_idx < (s.msgs s.nmsgs).len)
    (hv : (strtoul arg).1 ≤ 255) (hc : (strtoul arg).2 ≠ 0) :
    (suffixOf arg = none →
      parseArg env fl s arg = .ok
        (if s.buf_idx + 1 = (s.msgs s.nmsgs).len then
          { s with
            msgs := setMsg s.msgs s.nmsgs
              { s.msgs s.nmsgs with buf := some (b.set s.buf_idx (strtoul arg).1) }
            buf_idx := s.buf_idx + 1
            nmsgs := s.nmsgs + 1
            state := parse_state.PARSE_GET_DESC }
        else
          { s with
            msgs := setMsg s.msgs s.nmsgs
              { s.msgs s.nmsgs with buf := some (b.set s.buf_idx (strtoul arg).1) }
            buf_idx := s.buf_idx + 1 }))
    ∧ (∀ c : Char, suffixOf arg = some c → (c = '=' ∨ c = '+' ∨ c = '-') →
      parseArg env fl s arg = .ok
        { s with
          msgs := setMsg s.msgs s.nmsgs
            { s.msgs s.nmsgs with
              buf := some (expectedBuf c b s.buf_idx (strtoul arg).1 (s.msgs s.nmsgs).len) }
          buf_idx := (s.msgs s.nmsgs).len
          nmsgs := s.nmsgs + 1
          state := parse_state.PARSE_GET_DESC })
    ∧ outcome (parseArgs stdEnv noFlags
          ["w17@0x50".toList, "0x42".toList, "0xff-".toList])
        = .ok (1, [⟨0x50, 0, 17, some [0x42, 0xff, 0xfe, 0xfd, 0xfc, 0xfb, 0xfa, 0xf9, 0xf8,
            0xf7, 0xf6, 0xf5, 0xf4, 0xf3, 0xf2, 0xf1, 0xf0]⟩]) := by
  have hge : ¬ s.nmsgs > I2C_RDRW_IOCTL_MAX_MSGS := by omega
  have hchk : ¬ ((strtoul arg).1 > 0xff ∨ (strtoul arg).2 = 0) := by omega
  have hmod : (strtoul arg).1 % 256 = (strtoul arg).1 := Nat.mod_eq_of_lt (by omega)
  refine ⟨?_, ?_, ?_⟩
  · intro hsfx
    unfold suffixOf at hsfx
    obtain ⟨n, hn⟩ : ∃ n, (s.msgs s.nmsgs).len - s.buf_idx = n + 1 :=
      ⟨(s.msgs s.nmsgs).len - s.buf_idx - 1, by omega⟩
    simp only [parseArg, if_neg hge, hstate, parseData, if_neg hchk, hsfx, hn, hbuf,
      Option.getD_some, hmod, dataLoop_none _ _ _ _ _ hk, storeData, Option.map_some']
  · intro c hsfx hcc
    unfold suffixOf at hsfx
    have hcc4 : c = 'p' ∨ c = '+' ∨ c = '-' ∨ c = '=' := by
      rcases hcc with h | h | h
      · exact Or.inr (Or.inr (Or.inr h))
      · exact Or.inr (Or.inl h)
      · exact Or.inr (Or.inr (Or.inl h))
    have hloop := dataLoop_suffix c hcc4 (s.msgs s.nmsgs).len
      ((s.msgs s.nmsgs).len - s.buf_idx) b s.buf_idx (strtoul arg).1 hlen rfl (le_of_lt hk)
    rw [filledBy_eq_expectedBuf c hcc b _ _ _ hv] at hloop
    simp only [parseArg, if_neg hge, hstate, parseData, if_neg hchk, hsfx, hbuf,
      Option.getD_some, hmod, hloop, storeData, Option.map_some', if_true]
  · rfl

/-- Witness for C6: the argument `0xff-` read behind `w17@0x50 0x42`. -/
theorem C6_data_suffix_witness :
    exampleDataState.state = parse_state.PARSE_GET_DATA
      ∧ exampleDataState.buf_idx = 1
      ∧ suffixOf "0xff-".toList = some '-'
      ∧ parseArg stdEnv noFlags exampleDataState "0xff-".toList = .ok
          { exampleDataState with
            msgs := setMsg exampleDataState.msgs exampleDataState.nmsgs
              { exampleDataState.msgs exampleDataState.nmsgs with
                buf := some (expectedBuf '-' (0x42 :: List.replicate 16 0)
                  exampleDataState.buf_idx (strtoul "0xff-".toList).1
                  (exampleDataState.msgs exampleDataState.nmsgs).len) }
            buf_idx := (exampleDataState.msgs exampleDataState.nmsgs).len
            nmsgs := exampleDataState.nmsgs + 1
            state := parse_state.PARSE_GET_DESC } :=
  ⟨by decide, by decide, by decide,
    (C6_data_suffix stdEnv noFlags exampleDataState "0xff-".toList
      (0x42 :: List.replicate 16 0) (by decide) (by decide) (by decide) (by decide)
      (by decide) (by decide) (by decide)).2.1 '-' (by decide) (Or.inr (Or.inr rfl))⟩


theorem parseArg_ok_le (env : Env) (fl : Flags) (s s1 : ParseState) (arg : List Char)
    (h : parseArg env fl s arg = .ok s1) : s.nmsgs ≤ I2C_RDRW_IOCTL_MAX_MSGS := by
  by_contra hc
  have hgt : s.nmsgs > I2C_RDRW_IOCTL_MAX_MSGS := by omega
  simp [parseArg, hgt] at h

theorem parseArg_desc (env : Env) (fl : Flags) (s : ParseState) (arg : List Char)
    (hs : s.state = parse_state.PARSE_GET_DESC) (hn : s.nmsgs ≤ I2C_RDRW_IOCTL_MAX_MSGS) :
    parseArg env fl s arg = parseDesc env fl s arg := by
  have hge : ¬ s.nmsgs > I2C_RDRW_IOCTL_MAX_MSGS := by omega
  simp only [parseArg, if_neg hge, hs]

theorem parseArg_data (env : Env) (fl : Flags) (s : ParseState) (arg : List Char)
    (hs : s.state = parse_state.PARSE_GET_DATA) (hn : s.nmsgs ≤ I2C_RDRW_IOCTL_MAX_MSGS) :
    parseArg env fl s arg = parseData s arg := by
  have hge : ¬ s.nmsgs > I2C_RDRW_IOCTL_MAX_MSGS := by omega
  simp only [parseArg, if_neg hge, hs]

theorem parseDesc_inv (env : Env) (fl : Flags) (s s1 : ParseState) (arg : List Char)
    (h : parseDesc env fl s arg = .ok s1) :
    ∃ flags len rest a, parseDirLen arg = .ok (flags, len, rest)
      ∧ parseAddress env fl s.address rest = .ok a
      ∧ ¬ (len ≠ 0 ∧ env.malloc_fails len = true)
      ∧ s1 = storeDesc s flags len a := by
  unfold parseDesc at h
  cases hdl : parseDirLen arg with
  | error e => rw [hdl] at h; simp at h
  | ok r =>
    obtain ⟨flags, len, rest⟩ := r
    rw [hdl] at h
    simp only at h
    cases hpa : parseAddress env fl s.address rest with
    | error e => rw [hpa] at h; simp at h
    | ok a =>
      rw [hpa] at h
      simp only at h
      by_cases hm : len ≠ 0 ∧ env.malloc_fails len = true
      · rw [if_pos hm] at h; simp at h
      · rw [if_neg hm] at h
        exact ⟨flags, len, rest, a, rfl, hpa, hm, (Except.ok.inj h).symm⟩

theorem parseDesc_eq (env : Env) (fl : Flags) (s : ParseState) (arg : List Char)
    (flags len : Nat) (rest : List Char) (a : Int)
    (h1 : parseDirLen arg = .ok (flags, len, rest))
    (h2 : parseAddress env fl s.address rest = .ok a) :
    parseDesc env fl s arg =
      if len ≠ 0 ∧ env.malloc_fails len = true then .error Failure.NoMemory
      else .ok (storeDesc s flags len a) := by
  unfold parseDesc
  rw [h1]
  simp only
  rw [h2]

theorem parseAddress_cons_ok (env : Env) (fl : Flags) (addr a : Int) (c : Char)
    (q : List Char) (h : parseAddress env fl addr (c :: q) = .ok a) :
    a = env.parse_i2c_address q fl.all_addrs ∧ 0 ≤ a := by
  unfold parseAddress at h
  simp only at h
  split_ifs at h with h1 h2 h3
  have := Except.ok.inj h
  exact ⟨this.symm, by omega⟩

theorem parseAddress_nil_ok (env : Env) (fl : Flags) (addr a : Int)
    (h : parseAddress env fl addr [] = .ok a) : a = addr ∧ 0 ≤ addr := by
  unfold parseAddress at h
  simp only at h
  split_ifs at h with h1
  exact ⟨(Except.ok.inj h).symm, by omega⟩

theorem parseDirLen_ok (arg : List Char) (flags len : Nat) (rest : List Char)
    (h : parseDirLen arg = .ok (flags, len, rest)) :
    len ≤ 65535 ∧ (flags = 0 ∨ flags = I2C_M_RD ∨ flags = I2C_M_RD ||| I2C_M_RECV_LEN) := by
  unfold parseDirLen at h
  cases arg with
  | nil => simp at h
  | cons c p =>
    simp only at h
    by_cases h1 : c ≠ 'r' ∧ c ≠ 'w'
    · rw [if_pos h1] at h; cases h
    · rw [if_neg h1] at h
      by_cases h2 : p.head? = some '?'
      · rw [if_pos h2] at h
        by_cases hr : c = 'r'
        · simp only [hr, if_true] at h
          rw [if_neg (by decide)] at h
          have := Except.ok.inj h
          simp only [Prod.mk.injEq] at this
          obtain ⟨hf, hl, -⟩ := this
          subst hf hl
          exact ⟨by omega, Or.inr (Or.inr rfl)⟩
        · simp only [hr, if_false] at h
          rw [if_pos (by decide)] at h
          cases h
      · rw [if_neg h2] at h
        by_cases h3 : (strtoul p).1 > 0xffff ∨ (strtoul p).2 = 0
        · rw [if_pos h3] at h; cases h
        · rw [if_neg h3] at h
          have := Except.ok.inj h
          simp only [Prod.mk.injEq] at this
          obtain ⟨hf, hl, -⟩ := this
          subst hf hl
          refine ⟨by omega, ?_⟩
          by_cases hr : c = 'r'
          · rw [if_pos hr]; exact Or.inr (Or.inl rfl)
          · rw [if_neg hr]; exact Or.inl rfl

theorem storeDesc_address (s : ParseState) (flags len : Nat) (a : Int) :
    (storeDesc s flags len a).address = a := by
  unfold storeDesc
  split_ifs <;> rfl

theorem storeDesc_msg (s : ParseState) (flags len : Nat) (a : Int) :
    ((storeDesc s flags len a).msgs s.nmsgs).addr = (a % 65536).toNat
      ∧ ((storeDesc s flags len a).msgs s.nmsgs).flags = flags % 65536
      ∧ ((storeDesc s flags len a).msgs s.nmsgs).len = len % 65536 := by
  unfold storeDesc
  split_ifs <;> simp [setMsg]

theorem storeDesc_other (s : ParseState) (flags len : Nat) (a : Int) (j : Nat)
    (hj : j ≠ s.nmsgs) : (storeDesc s flags len a).msgs j = s.msgs j := by
  unfold storeDesc
  split_ifs <;> simp [setMsg, hj]

theorem storeDesc_done (s : ParseState) (flags len : Nat) (a : Int)
    (h : flags &&& I2C_M_RD ≠ 0 ∨ len = 0) :
    (storeDesc s flags len a).nmsgs = s.nmsgs + 1
      ∧ (storeDesc s flags len a).state = s.state
      ∧ (storeDesc s flags len a).buf_idx = s.buf_idx := by
  unfold storeDesc
  rw [if_pos h]
  exact ⟨rfl, rfl, rfl⟩

theorem storeDesc_data (s : ParseState) (flags len : Nat) (a : Int)
    (h : ¬ (flags &&& I2C_M_RD ≠ 0 ∨ len = 0)) :
    (storeDesc s flags len a).nmsgs = s.nmsgs
      ∧ (storeDesc s flags len a).state = parse_state.PARSE_GET_DATA
      ∧ (storeDesc s flags len a).buf_idx = 0 := by
  unfold storeDesc
  rw [if_neg h]
  exact ⟨rfl, rfl, rfl⟩

theorem parseData_inv (s s1 : ParseState) (arg : List Char)
    (h : parseData s arg = .ok s1) :
    ∃ buf idx, dataLoop (suffixOf arg) (s.msgs s.nmsgs).len
        ((s.msgs s.nmsgs).len - s.buf_idx) ((s.msgs s.nmsgs).buf.getD []) s.buf_idx
        ((strtoul arg).1 % 256) = .ok (buf, idx)
      ∧ s1 = storeData s buf idx := by
  unfold parseData at h
  simp only at h
  by_cases hc : (strtoul arg).1 > 0xff ∨ (strtoul arg).2 = 0
  · rw [if_pos hc] at h; cases h
  · rw [if_neg hc] at h
    unfold suffixOf
    cases hl : dataLoop (arg.drop (strtoul arg).2).head? (s.msgs s.nmsgs).len
        ((s.msgs s.nmsgs).len - s.buf_idx) ((s.msgs s.nmsgs).buf.getD []) s.buf_idx
        ((strtoul arg).1 % 256) with
    | error e => rw [hl] at h; cases h
    | ok r =>
      obtain ⟨buf, idx⟩ := r
      rw [hl] at h
      exact ⟨buf, idx, rfl, (Except.ok.inj h).symm⟩

theorem dataLoop_bounds (e : Option Char) (len : Nat) :
    ∀ (n : Nat) (buf : List Nat) (idx data : Nat) (buf1 : List Nat) (idx1 : Nat),
      dataLoop e len n buf idx data = .ok (buf1, idx1) → n = len - idx → idx < len →
      idx < idx1 ∧ idx1 ≤ len := by
  intro n
  induction n with
  | zero => intro buf idx data buf1 idx1 _ hn hlt; omega
  | succ n ih =>
    intro buf idx data buf1 idx1 h hn hlt
    have key : ∀ d, dataLoop e len n (buf.set idx data) (idx + 1) d = .ok (buf1, idx1) →
        idx < idx1 ∧ idx1 ≤ len := by
      intro d hd
      by_cases hlt2 : idx + 1 < len
      · have := ih _ _ _ _ _ hd (by omega) hlt2
        omega
      · have hn0 : n = 0 := by omega
        subst hn0
        simp only [dataLoop] at hd
        have := Except.ok.inj hd
        simp only [Prod.mk.injEq] at this
        omega
    simp only [dataLoop, if_pos hlt] at h
    cases e with
    | none =>
      simp only at h
      have := Except.ok.inj h
      simp only [Prod.mk.injEq] at this
      omega
    | some c =>
      simp only at h
      split_ifs at h
      · exact key _ h
      · exact key _ h
      · exact key _ h
      · exact key _ h

theorem storeData_fields (s : ParseState) (buf : List Nat) (idx : Nat) :
    (storeData s buf idx).address = s.address
      ∧ (storeData s buf idx).buf_idx = idx
      ∧ ((storeData s buf idx).msgs s.nmsgs).len = (s.msgs s.nmsgs).len
      ∧ ((storeData s buf idx).msgs s.nmsgs).flags = (s.msgs s.nmsgs).flags
      ∧ ((storeData s buf idx).msgs s.nmsgs).addr = (s.msgs s.nmsgs).addr
      ∧ (∀ j, j ≠ s.nmsgs → (storeData s buf idx).msgs j = s.msgs j) := by
  by_cases h : idx = (s.msgs s.nmsgs).len
  · simp only [storeData, if_pos h, setMsg, if_true, true_and]
    intro j hj
    rw [if_neg hj]
  · simp only [storeData, if_neg h, setMsg, if_true, true_and]
    intro j hj
    rw [if_neg hj]

theorem storeData_done (s : ParseState) (buf : List Nat) (idx : Nat)
    (h : idx = (s.msgs s.nmsgs).len) :
    (storeData s buf idx).nmsgs = s.nmsgs + 1
      ∧ (storeData s buf idx).state = parse_state.PARSE_GET_DESC := by
  simp [storeData, h]

theorem storeData_more (s : ParseState) (buf : List Nat) (idx : Nat)
    (h : idx ≠ (s.msgs s.nmsgs).len) :
    (storeData s buf idx).nmsgs = s.nmsgs
      ∧ (storeData s buf idx).state = s.state := by
  simp [storeData, h]


theorem AddrInv_step (env : Env) (fl : Flags) (s s1 : ParseState) (arg : List Char)
    (last : Option Int) (hinv : AddrInv s last) (h : parseArg env fl s arg = .ok s1) :
    AddrInv s1
      (if s.state = parse_state.PARSE_GET_DESC then
        (match givenAddress env fl arg with
         | some a => some a
         | none => last)
       else last) := by
  have hle := parseArg_ok_le env fl s s1 arg h
  obtain ⟨h1, h2, h3⟩ := hinv
  cases hs : s.state with
  | PARSE_GET_DATA =>
    rw [if_neg (by simp)]
    rw [parseArg_data env fl s arg hs hle] at h
    obtain ⟨buf, idx, -, rfl⟩ := parseData_inv s s1 arg h
    refine ⟨by rw [(storeData_fields s buf idx).1]; exact h1, h2, ?_⟩
    intro hnone
    rw [(h3 hnone).2] at hs
    cases hs
  | PARSE_GET_DESC =>
    rw [if_pos rfl]
    rw [parseArg_desc env fl s arg hs hle] at h
    obtain ⟨flags, len, rest, a, hdl, hpa, -, rfl⟩ := parseDesc_inv env fl s s1 arg h
    rw [AddrInv, storeDesc_address]
    cases rest with
    | nil =>
      obtain ⟨ha, hnn⟩ := parseAddress_nil_ok env fl s.address a hpa
      have hg : givenAddress env fl arg = none := by simp [givenAddress, hdl]
      rw [hg]
      subst ha
      refine ⟨h1, h2, ?_⟩
      intro hnone
      simp only at hnone
      rw [hnone] at h1
      simp at h1
      omega
    | cons c q =>
      obtain ⟨ha, hnn⟩ := parseAddress_cons_ok env fl s.address a c q hpa
      have hg : givenAddress env fl arg = some a := by simp [givenAddress, hdl, ha]
      rw [hg]
      refine ⟨rfl, ?_, ?_⟩
      · intro b hb
        cases hb
        exact hnn
      · intro hnone
        cases hnone

theorem AddrInv_run (env : Env) (fl : Flags) (args : List (List Char)) :
    ∀ (s s1 : ParseState) (last : Option Int), AddrInv s last →
      parseLoop env fl s args = .ok s1 →
      AddrInv s1 (lastGivenAddress env fl s args last) := by
  induction args with
  | nil =>
    intro s s1 last hinv h
    simp only [parseLoop] at h
    cases h
    exact hinv
  | cons arg args ih =>
    intro s s1 last hinv h
    simp only [parseLoop] at h
    cases hstep : parseArg env fl s arg with
    | error e => rw [hstep] at h; cases h
    | ok s2 =>
      rw [hstep] at h
      simp only at h
      have := ih s2 s1 _ (AddrInv_step env fl s s2 arg last hinv hstep) h
      simp only [lastGivenAddress, hstep]
      exact this

theorem AddrInv_init : AddrInv initState none := by
  refine ⟨rfl, ?_, fun _ => ⟨rfl, rfl⟩⟩
  intro a h
  cases h

/-- C7: when the argument loop reaches a DESC without `@address`, the DESC is
rejected with "No address given" if no earlier DESC carried an address, and
otherwise (there being room for the message and memory for its buffer) it is
accepted and its message is given the address of the most recent earlier DESC
that carried one, which stays the address for the DESCs that follow.  The
arguments `w1@0x50 0x64 r8` parse to a write of length 1 with buffer `[0x64]`
to address `0x50` followed by a read of length 8 from address `0x50`. -/
theorem C7_address_reuse (env : Env) (fl : Flags) (pre : List (List Char)) (s : ParseState)
    (d : List Char) (flags len : Nat)
    (hrun : parseLoop env fl initState pre = .ok s)
    (hstate : s.state = parse_state.PARSE_GET_DESC)
    (hd : parseDirLen d = .ok (flags, len, [])) :
    (lastGivenAddress env fl initState pre none = none →
        parseArg env fl s d = .error Failure.NoAddressGiven)
    ∧ (∀ a : Int, lastGivenAddress env fl initState pre none = some a →
        s.address = a
        ∧ (s.nmsgs ≤ I2C_RDRW_IOCTL_MAX_MSGS →
            ¬ (len ≠ 0 ∧ env.malloc_fails len = true) →
            parseArg env fl s d = .ok (storeDesc s flags len a)
            ∧ ((storeDesc s flags len a).msgs s.nmsgs).addr = (a % 65536).toNat
            ∧ (storeDesc s flags len a).address = a))
    ∧ outcome (parseArgs stdEnv noFlags ["w1@0x50".toList, "0x64".toList, "r8".toList])
        = .ok (2, [⟨0x50, 0, 1, some [0x64]⟩,
                   ⟨0x50, I2C_M_RD, 8, some [0, 0, 0, 0, 0, 0, 0, 0]⟩]) := by
  obtain ⟨h1, h2, h3⟩ := AddrInv_run env fl pre initState s none AddrInv_init hrun
  refine ⟨?_, ?_, rfl⟩
  · intro hnone
    obtain ⟨hn0, -⟩ := h3 hnone
    rw [hnone] at h1
    rw [parseArg_desc env fl s d hstate (by rw [hn0]; exact Nat.zero_le _)]
    unfold parseDesc
    rw [hd]
    simp only [parseAddress, h1]
    rfl
  · intro a hsome
    rw [hsome] at h1
    have hnn := h2 a hsome
    simp only [Option.getD_some] at h1
    refine ⟨h1, ?_⟩
    intro hle hmem
    have hpa : parseAddress env fl s.address [] = .ok a := by
      simp only [parseAddress, h1]
      rw [if_neg (by omega)]
    rw [parseArg_desc env fl s d hstate hle, parseDesc_eq env fl s d flags len [] a hd hpa,
      if_neg hmem]
    exact ⟨rfl, (storeDesc_msg s flags len a).1, storeDesc_address s flags len a⟩

/-- Witness for C7: the DESC `r8` read behind `w1@0x50 0x64`. -/
theorem C7_address_reuse_witness :
    parseLoop stdEnv noFlags initState ["w1@0x50".toList, "0x64".toList]
        = .ok exampleDescState
      ∧ exampleDescState.state = parse_state.PARSE_GET_DESC
      ∧ parseDirLen "r8".toList = .ok (I2C_M_RD, 8, [])
      ∧ lastGivenAddress stdEnv noFlags initState ["w1@0x50".toList, "0x64".toList] none
          = some 0x50
      ∧ exampleDescState.address = 0x50
      ∧ parseArg stdEnv noFlags exampleDescState "r8".toList
          = .ok (storeDesc exampleDescState I2C_M_RD 8 0x50)
      ∧ ((storeDesc exampleDescState I2C_M_RD 8 0x50).msgs exampleDescState.nmsgs).addr
          = ((0x50 : Int) % 65536).toNat
      ∧ (storeDesc exampleDescState I2C_M_RD 8 0x50).address = 0x50 :=
  have h := (C7_address_reuse stdEnv noFlags ["w1@0x50".toList, "0x64".toList]
    exampleDescState "r8".toList I2C_M_RD 8 rfl (by decide) rfl).2.1 0x50 (by decide)
  ⟨rfl, by decide, rfl, by decide, h.1, h.2 (by decide) (by decide)⟩

theorem parseDirLen_numeric (c : Char) (p : List Char) (flags len : Nat) (rest : List Char)
    (hq : p.head? ≠ some '?') (h : parseDirLen (c :: p) = .ok (flags, len, rest)) :
    len = (strtoul p).1 ∧ (strtoul p).2 ≠ 0 ∧ (strtoul p).1 ≤ 65535 := by
  unfold parseDirLen at h
  simp only at h
  by_cases h1 : c ≠ 'r' ∧ c ≠ 'w'
  · rw [if_pos h1] at h; cases h
  · rw [if_neg h1, if_neg hq] at h
    by_cases h3 : (strtoul p).1 > 0xffff ∨ (strtoul p).2 = 0
    · rw [if_pos h3] at h; cases h
    · rw [if_neg h3] at h
      have := Except.ok.inj h
      simp only [Prod.mk.injEq] at this
      obtain ⟨-, hl, -⟩ := this
      exact ⟨hl.symm, by omega, by omega⟩

theorem parseDirLen_invalid (c : Char) (p : List Char) (hc : c = 'r' ∨ c = 'w')
    (hq : p.head? ≠ some '?') (h : (strtoul p).1 > 0xffff ∨ (strtoul p).2 = 0) :
    parseDirLen (c :: p) = .error Failure.LengthInvalid := by
  unfold parseDirLen
  simp only
  have h1 : ¬ (c ≠ 'r' ∧ c ≠ 'w') := by
    rcases hc with hc | hc <;> simp [hc]
  rw [if_neg h1, if_neg hq, if_pos h]

/-- C9: a DESC with a numeric LENGTH (direction `r` or `w`, then a text that
does not start with `?`) is rejected with "Length invalid" when `strtoul`
finds no digits or a value above `0xffff`; when the DESC is accepted, LENGTH
was converted from at least one digit to a value in 0..65535 and the `__u16`
length stored in the message equals that value.  So `r65535@0x50` is accepted
with length 65535, while `r65536@0x50`, `r0x10000@0x50` and `r@0x50` are
rejected. -/
theorem C9_length_range (env : Env) (fl : Flags) (s : ParseState) (c : Char) (p : List Char)
    (hstate : s.state = parse_state.PARSE_GET_DESC) (hq : p.head? ≠ some '?') :
    (s.nmsgs ≤ I2C_RDRW_IOCTL_MAX_MSGS → (c = 'r' ∨ c = 'w') →
        ((strtoul p).1 > 0xffff ∨ (strtoul p).2 = 0) →
        parseArg env fl s (c :: p) = .error Failure.LengthInvalid)
    ∧ (∀ s1 : ParseState, parseArg env fl s (c :: p) = .ok s1 →
        (strtoul p).2 ≠ 0 ∧ (strtoul p).1 ≤ 65535
          ∧ (s1.msgs s.nmsgs).len = (strtoul p).1)
    ∧ storedLengths (parseArgs stdEnv noFlags ["r65535@0x50".toList]) = .ok [65535]
    ∧ storedLengths (parseArgs stdEnv noFlags ["r65536@0x50".toList])
        = .error Failure.LengthInvalid
    ∧ storedLengths (parseArgs stdEnv noFlags ["r0x10000@0x50".toList])
        = .error Failure.LengthInvalid
    ∧ storedLengths (parseArgs stdEnv noFlags ["r@0x50".toList])
        = .error Failure.LengthInvalid := by
  refine ⟨?_, ?_, rfl, rfl, rfl, rfl⟩
  · intro hle hc hbad
    rw [parseArg_desc env fl s _ hstate hle]
    unfold parseDesc
    rw [parseDirLen_invalid c p hc hq hbad]
  · intro s1 h
    have hle := parseArg_ok_le env fl s s1 _ h
    rw [parseArg_desc env fl s _ hstate hle] at h
    obtain ⟨flags, len, rest, a, hdl, -, -, rfl⟩ := parseDesc_inv env fl s s1 _ h
    obtain ⟨hl, hn, hr⟩ := parseDirLen_numeric c p flags len rest hq hdl
    refine ⟨hn, hr, ?_⟩
    rw [(storeDesc_msg s flags len a).2.2, hl]
    exact Nat.mod_eq_of_lt (by omega)

/-- Witness for C9: the DESC `r8` read behind `w1@0x50 0x64`. -/
theorem C9_length_range_witness :
    exampleDescState.state = parse_state.PARSE_GET_DESC
      ∧ "8".toList.head? ≠ some '?'
      ∧ parseArg stdEnv noFlags exampleDescState ('r' :: "8".toList)
          = .ok (storeDesc exampleDescState I2C_M_RD 8 0x50)
      ∧ ((strtoul "8".toList).2 ≠ 0 ∧ (strtoul "8".toList).1 ≤ 65535
          ∧ ((storeDesc exampleDescState I2C_M_RD 8 0x50).msgs exampleDescState.nmsgs).len
              = (strtoul "8".toList).1) :=
  ⟨by decide, by decide, rfl,
    (C9_length_range stdEnv noFlags exampleDescState 'r' "8".toList (by decide)
      (by decide)).2.1 (storeDesc exampleDescState I2C_M_RD 8 0x50) rfl⟩


theorem flags_mod (flags : Nat)
    (h : flags = 0 ∨ flags = I2C_M_RD ∨ flags = I2C_M_RD ||| I2C_M_RECV_LEN) :
    flags % 65536 = flags := by
  rcases h with h | h | h <;> subst h <;> decide

theorem DataInv_step (env : Env) (fl : Flags) (s s1 : ParseState) (arg : List Char)
    (received : Nat → Nat) (hinv : DataInv s received)
    (h : parseArg env fl s arg = .ok s1) :
    DataInv s1
      (if s.state = parse_state.PARSE_GET_DATA then
        (fun i => if i = s.nmsgs then received i + (s1.buf_idx - s.buf_idx) else received i)
       else received) := by
  have hle := parseArg_ok_le env fl s s1 arg h
  obtain ⟨hA, hB, hC, hD⟩ := hinv
  cases hs : s.state with
  | PARSE_GET_DESC =>
    rw [if_neg (by simp)]
    rw [parseArg_desc env fl s arg hs hle] at h
    obtain ⟨flags, len, rest, a, hdl, -, -, rfl⟩ := parseDesc_inv env fl s s1 arg h
    obtain ⟨hlen, hfl⟩ := parseDirLen_ok arg flags len rest hdl
    obtain ⟨-, hmf, hml⟩ := storeDesc_msg s flags len a
    rw [flags_mod flags hfl] at hmf
    rw [Nat.mod_eq_of_lt (by omega : len < 65536)] at hml
    have hB0 := hB hs
    by_cases hdone : flags &&& I2C_M_RD ≠ 0 ∨ len = 0
    · obtain ⟨hn, hst, -⟩ := storeDesc_done s flags len a hdone
      refine ⟨?_, ?_, ?_, ?_⟩
      · intro hc; rw [hst, hs] at hc; cases hc
      · intro _; rw [hn]; exact hC _ (by omega)
      · intro i hi; rw [hn] at hi; exact hC i (by omega)
      · intro i hi
        rw [hn] at hi
        by_cases hi2 : i = s.nmsgs
        · subst hi2
          rw [hB0, need, hmf, hml]
          rcases hdone with hd | hd
          · rw [if_neg hd]
          · rw [hd]; simp
        · rw [storeDesc_other s flags len a i hi2]
          exact hD i (by omega)
    · obtain ⟨hn, hst, hbi⟩ := storeDesc_data s flags len a hdone
      have hrd : flags &&& I2C_M_RD = 0 := by
        by_contra hc; exact hdone (Or.inl hc)
      have hl0 : len ≠ 0 := fun hc => hdone (Or.inr hc)
      refine ⟨?_, ?_, ?_, ?_⟩
      · intro _
        rw [hn, hmf, hml, hbi]
        exact ⟨hrd, by omega, hB0⟩
      · intro hc; rw [hst] at hc; cases hc
      · intro i hi; rw [hn] at hi; exact hC i hi
      · intro i hi
        rw [hn] at hi
        rw [storeDesc_other s flags len a i (by omega)]
        exact hD i hi
  | PARSE_GET_DATA =>
    rw [if_pos rfl]
    rw [parseArg_data env fl s arg hs hle] at h
    obtain ⟨buf, idx, hloop, rfl⟩ := parseData_inv s s1 arg h
    obtain ⟨hrd, hlt, hrec⟩ := hA hs
    obtain ⟨hb1, hb2⟩ := dataLoop_bounds _ _ _ _ _ _ _ _ hloop rfl hlt
    obtain ⟨-, hbi, hml, hmf, -, hother⟩ := storeData_fields s buf idx
    rw [hbi]
    by_cases hfull : idx = (s.msgs s.nmsgs).len
    · obtain ⟨hn, hst⟩ := storeData_done s buf idx hfull
      refine ⟨?_, ?_, ?_, ?_⟩
      · intro hc; rw [hst] at hc; cases hc
      · intro _
        rw [hn]
        simp only [if_neg (show s.nmsgs + 1 ≠ s.nmsgs by omega)]
        exact hC _ (by omega)
      · intro i hi
        rw [hn] at hi
        simp only [if_neg (show i ≠ s.nmsgs by omega)]
        exact hC i (by omega)
      · intro i hi
        rw [hn] at hi
        by_cases hi2 : i = s.nmsgs
        · subst hi2
          simp only [if_true]
          rw [need, hmf, hml, if_pos hrd, hrec]
          omega
        · simp only [if_neg hi2]
          rw [hother i hi2]
          exact hD i (by omega)
    · obtain ⟨hn, hst⟩ := storeData_more s buf idx hfull
      refine ⟨?_, ?_, ?_, ?_⟩
      · intro _
        rw [hn, hmf, hml]
        simp only [if_true]
        exact ⟨hrd, by omega, by omega⟩
      · intro hc; rw [hst, hs] at hc; cases hc
      · intro i hi
        rw [hn] at hi
        simp only [if_neg (show i ≠ s.nmsgs by omega)]
        exact hC i hi
      · intro i hi
        rw [hn] at hi
        simp only [if_neg (show i ≠ s.nmsgs by omega)]
        rw [hother i (by omega)]
        exact hD i hi

theorem DataInv_run (env : Env) (fl : Flags) (args : List (List Char)) :
    ∀ (s s1 : ParseState) (received : Nat → Nat), DataInv s received →
      parseLoop env fl s args = .ok s1 →
      DataInv s1 (receivedBytes env fl s args received) := by
  induction args with
  | nil =>
    intro s s1 received hinv h
    simp only [parseLoop] at h
    cases h
    exact hinv
  | cons arg args ih =>
    intro s s1 received hinv h
    simp only [parseLoop] at h
    cases hstep : parseArg env fl s arg with
    | error e => rw [hstep] at h; cases h
    | ok s2 =>
      rw [hstep] at h
      simp only at h
      have := ih s2 s1 _ (DataInv_step env fl s s2 arg received hinv hstep) h
      simp only [receivedBytes, hstep]
      exact this

theorem DataInv_init : DataInv initState (fun _ => 0) := by
  refine ⟨?_, fun _ => rfl, fun _ _ => rfl, ?_⟩
  · intro h; cases h
  · intro i hi; cases hi

/-- C10: the argument parser reaches the send step only behind a complete
description: at least one message, the loop back in `PARSE_GET_DESC`, and
every message to send having received exactly the data bytes it asks for (its
LENGTH for a write, none for a read).  When the arguments end while a write
message still lacks data bytes (the loop is in `PARSE_GET_DATA`, the message
has received `buf_idx` bytes, fewer than its length), or when no message was
described, the parser fails with "Incomplete message".  So no arguments, and
`w2@0x50 0x01`, are rejected, and `w2@0x50 0x01 0x02` is accepted. -/
theorem C10_incomplete_message (env : Env) (fl : Flags) (args : List (List Char)) :
    (∀ s : ParseState, parseArgs env fl args = .ok s →
        parseLoop env fl initState args = .ok s
        ∧ 1 ≤ s.nmsgs
        ∧ s.state = parse_state.PARSE_GET_DESC
        ∧ ∀ i, i < s.nmsgs →
            receivedBytes env fl initState args (fun _ => 0) i = need (s.msgs i))
    ∧ (∀ s : ParseState, parseLoop env fl initState args = .ok s →
        (s.state = parse_state.PARSE_GET_DATA →
            (s.msgs s.nmsgs).flags &&& I2C_M_RD = 0
            ∧ receivedBytes env fl initState args (fun _ => 0) s.nmsgs = s.buf_idx
            ∧ s.buf_idx < (s.msgs s.nmsgs).len)
        ∧ (s.state = parse_state.PARSE_GET_DATA ∨ s.nmsgs = 0 →
            parseArgs env fl args = .error Failure.IncompleteMessage))
    ∧ outcome (parseArgs stdEnv noFlags []) = .error Failure.IncompleteMessage
    ∧ outcome (parseArgs stdEnv noFlags ["w2@0x50".toList, "0x01".toList])
        = .error Failure.IncompleteMessage
    ∧ outcome (parseArgs stdEnv noFlags ["w2@0x50".toList, "0x01".toList, "0x02".toList])
        = .ok (1, [⟨0x50, 0, 2, some [1, 2]⟩]) := by
  refine ⟨?_, ?_, rfl, rfl, rfl⟩
  · intro s h
    unfold parseArgs at h
    cases hl : parseLoop env fl initState args with
    | error e => rw [hl] at h; cases h
    | ok s2 =>
      rw [hl] at h
      simp only [finish] at h
      by_cases hc : s2.state ≠ parse_state.PARSE_GET_DESC ∨ s2.nmsgs = 0
      · rw [if_pos hc] at h; cases h
      · rw [if_neg hc] at h
        have hs := Except.ok.inj h
        subst hs
        obtain ⟨-, -, -, hD⟩ := DataInv_run env fl args initState s2 _ DataInv_init hl
        refine ⟨rfl, ?_, ?_, hD⟩
        · have : s2.nmsgs ≠ 0 := fun h0 => hc (Or.inr h0)
          omega
        · by_contra hne; exact hc (Or.inl hne)
  · intro s hl
    obtain ⟨hA, -, -, -⟩ := DataInv_run env fl args initState s _ DataInv_init hl
    constructor
    · intro hs
      obtain ⟨h1, h2, h3⟩ := hA hs
      exact ⟨h1, h3, h2⟩
    · intro hc
      unfold parseArgs
      rw [hl]
      simp only [finish]
      rw [if_pos]
      rcases hc with hc | hc
      · left; rw [hc]; decide
      · right; exact hc

/-- Witness for C10: the arguments `w1@0x50 0x64 r8` reach the send step. -/
theorem C10_incomplete_message_witness :
    parseLoop stdEnv noFlags initState ["w1@0x50".toList, "0x64".toList, "r8".toList]
        = .ok (storeDesc exampleDescState I2C_M_RD 8 0x50)
      ∧ 1 ≤ (storeDesc exampleDescState I2C_M_RD 8 0x50).nmsgs
      ∧ (storeDesc exampleDescState I2C_M_RD 8 0x50).state = parse_state.PARSE_GET_DESC
      ∧ ∀ i, i < (storeDesc exampleDescState I2C_M_RD 8 0x50).nmsgs →
          receivedBytes stdEnv noFlags initState
              ["w1@0x50".toList, "0x64".toList, "r8".toList] (fun _ => 0) i
            = need ((storeDesc exampleDescState I2C_M_RD 8 0x50).msgs i) :=
  (C10_incomplete_message stdEnv noFlags
    ["w1@0x50".toList, "0x64".toList, "r8".toList]).1
    (storeDesc exampleDescState I2C_M_RD 8 0x50) rfl

/-- C8 (evaluation of the code where it departs from the claim): 43 DESC
arguments `r1@0x50` describe one message more than `I2C_RDRW_IOCTL_MAX_MSGS =
42`; the parser does not reject them: it reaches the send step with `nmsgs =
43`, having stored the last message in the cell `msgs[42]`, which is behind
the 42 elements of the array (the cell held no message before).  "Too many
messages" is only reported for a 44th argument. -/
theorem C8_too_many_messages_off_by_one :
    cellAfter (parseArgs stdEnv noFlags (List.replicate 43 "r1@0x50".toList)) 42
        = .ok (43, ⟨0x50, I2C_M_RD, 1, some [0]⟩)
      ∧ initState.msgs 42 = emptyMsg
      ∧ I2C_RDRW_IOCTL_MAX_MSGS = 42
      ∧ cellAfter (parseArgs stdEnv noFlags (List.replicate 44 "r1@0x50".toList)) 42
        = .error Failure.TooManyMessages := by
  refine ⟨rfl, rfl, rfl, rfl⟩

end I2cTransfer

/-! ## Theorems: `int` arithmetic -/

namespace CLib

theorem toBits_lt (x : Int) : toBits x < 2 ^ 32 := by
  unfold toBits
  have h1 : 0 ≤ x % 2 ^ 32 := Int.emod_nonneg _ (by norm_num)
  have h2 : x % 2 ^ 32 < 2 ^ 32 := Int.emod_lt_of_pos _ (by norm_num)
  omega

theorem toBits_ofBits (n : Nat) (h : n < 2 ^ 32) : toBits (ofBits n) = n := by
  unfold toBits ofBits
  have hm : n % 2 ^ 32 = n := Nat.mod_eq_of_lt h
  rw [hm]
  split_ifs <;> omega

theorem toBits_of_nonneg (x : Int) (h0 : 0 ≤ x) (h1 : x < 2 ^ 32) : toBits x = x.toNat := by
  unfold toBits
  rw [Int.emod_eq_of_lt h0 h1]

theorem ofBits_of_lt (n : Nat) (h : n < 2 ^ 31) : ofBits n = (n : Int) := by
  unfold ofBits
  have hm : n % 2 ^ 32 = n := Nat.mod_eq_of_lt (by omega)
  rw [hm, if_pos h]

theorem toInt_eq (v : Int) (h0 : -(2 ^ 31) ≤ v) (h1 : v < 2 ^ 31) : toInt v = v := by
  unfold toInt toBits ofBits
  have hn : 0 ≤ v % 2 ^ 32 := Int.emod_nonneg _ (by norm_num)
  have hl : v % 2 ^ 32 < 2 ^ 32 := Int.emod_lt_of_pos _ (by norm_num)
  have hm : (v % 2 ^ 32).toNat % 2 ^ 32 = (v % 2 ^ 32).toNat := Nat.mod_eq_of_lt (by omega)
  rw [hm]
  split_ifs <;> omega

theorem tdiv_two_bounds (a : Int) :
    (0 ≤ a → 0 ≤ Int.tdiv a 2 ∧ Int.tdiv a 2 ≤ a) ∧ (a ≤ 0 → a ≤ Int.tdiv a 2 ∧ Int.tdiv a 2 ≤ 0) := by
  constructor
  · intro h
    rw [Int.tdiv_eq_ediv h (by norm_num)]
    omega
  · intro h
    have e : Int.tdiv a 2 = -(Int.tdiv (-a) 2) := by rw [Int.neg_tdiv, neg_neg]
    rw [e, Int.tdiv_eq_ediv (by omega) (by norm_num)]
    omega

end CLib

/-! ## Theorems: `i2cset` -/

namespace I2cSet

open CLib

theorem maskedValue_bits (value vmask old : Int) :
    toBits (maskedValue value vmask old)
      = (toBits value &&& toBits vmask) ||| (toBits old &&& (toBits vmask ^^^ (2 ^ 32 - 1))) := by
  have hv := toBits_lt value
  have hm := toBits_lt vmask
  have ho := toBits_lt old
  have hx : toBits vmask ^^^ (2 ^ 32 - 1) < 2 ^ 32 := Nat.xor_lt_two_pow hm (by norm_num)
  have h1 : toBits value &&& toBits vmask < 2 ^ 32 := Nat.and_lt_two_pow _ hm
  have h2 : toBits old &&& (toBits vmask ^^^ (2 ^ 32 - 1)) < 2 ^ 32 := Nat.and_lt_two_pow _ hx
  unfold maskedValue int_or int_and int_not
  rw [toBits_ofBits _ (Nat.or_lt_two_pow (by rw [toBits_ofBits _ h1]; exact h1)
      (by rw [toBits_ofBits _ (Nat.and_lt_two_pow _ (by rw [toBits_ofBits _ hx]; exact hx))]
          rw [toBits_ofBits _ hx]; exact h2)),
    toBits_ofBits _ h1,
    toBits_ofBits _ (Nat.and_lt_two_pow _ (by rw [toBits_ofBits _ hx]; exact hx)),
    toBits_ofBits _ hx]

theorem maskedValue_testBit (value vmask old : Int) (i : Nat) (hi : i < 32) :
    (toBits (maskedValue value vmask old)).testBit i
      = if (toBits vmask).testBit i then (toBits value).testBit i
        else (toBits old).testBit i := by
  rw [maskedValue_bits, Nat.testBit_or, Nat.testBit_and, Nat.testBit_and, Nat.testBit_xor,
    Nat.testBit_two_pow_sub_one]
  cases (toBits vmask).testBit i <;> simp [hi]

theorem maskedValue_range (value vmask old : Int) (k : Nat) (hk : k ≤ 31)
    (hv0 : 0 ≤ value) (hv1 : value < 2 ^ k) (ho0 : 0 ≤ old) (ho1 : old < 2 ^ k) :
    0 ≤ maskedValue value vmask old ∧ maskedValue value vmask old < 2 ^ k := by
  have hk2 : (2 : Int) ^ k ≤ 2 ^ 31 := pow_le_pow_right₀ (by norm_num) hk
  have hk3 : (2 : Nat) ^ k ≤ 2 ^ 31 := Nat.pow_le_pow_right (by norm_num) hk
  have hvb : toBits value < 2 ^ k := by
    rw [toBits_of_nonneg value hv0 (by omega)]
    have : ((value.toNat : Nat) : Int) < ((2 ^ k : Nat) : Int) := by
      rw [Int.toNat_of_nonneg hv0]; push_cast; exact hv1
    exact_mod_cast this
  have hob : toBits old < 2 ^ k := by
    rw [toBits_of_nonneg old ho0 (by omega)]
    have : ((old.toNat : Nat) : Int) < ((2 ^ k : Nat) : Int) := by
      rw [Int.toNat_of_nonneg ho0]; push_cast; exact ho1
    exact_mod_cast this
  have hb : toBits (maskedValue value vmask old) < 2 ^ k := by
    rw [maskedValue_bits]
    exact Nat.or_lt_two_pow (lt_of_le_of_lt Nat.and_le_left hvb)
      (lt_of_le_of_lt Nat.and_le_left hob)
  have hlt31 : toBits (maskedValue value vmask old) < 2 ^ 31 := lt_of_lt_of_le hb hk3
  have hNlt : toBits (int_and value vmask) ||| toBits (int_and old (int_not vmask)) < 2 ^ 32 :=
    Nat.or_lt_two_pow (toBits_lt _) (toBits_lt _)
  have hdef : maskedValue value vmask old
      = ofBits (toBits (int_and value vmask) ||| toBits (int_and old (int_not vmask))) := rfl
  have hbN : toBits (maskedValue value vmask old)
      = toBits (int_and value vmask) ||| toBits (int_and old (int_not vmask)) := by
    rw [hdef, toBits_ofBits _ hNlt]
  rw [hbN] at hb hlt31
  rw [hdef, ofBits_of_lt _ hlt31]
  constructor
  · exact Int.natCast_nonneg _
  · have : ((toBits (int_and value vmask) ||| toBits (int_and old (int_not vmask)) : Nat) : Int)
        < ((2 ^ k : Nat) : Int) := by
      exact_mod_cast hb
    push_cast at this
    exact this

theorem readOld_not_write (dev : Device) (size : smbus_size) (daddress : Int) :
    (readOld dev size daddress).1.isWrite = false := by
  cases size <;> rfl

theorem writeEvent_isWrite (size : smbus_size) (daddress value : Int) (len : Nat)
    (block : List Nat) : (writeEvent size daddress value len block).isWrite = true := by
  cases size <;> rfl

theorem writePhase_events (dev : Device) (readback : Bool) (p : Parsed) (value : Int)
    (e : Event) (he : e ∈ (writePhase dev readback p value).2) :
    e = Event.set_pec true ∨ e = writeEvent p.size p.daddress value p.len p.block
      ∨ e = Event.set_pec false ∨ e = (readOld dev p.size p.daddress).1 := by
  unfold writePhase at he
  simp only at he
  split_ifs at he <;>
    simp only [List.mem_append, List.mem_cons, List.mem_singleton, List.not_mem_nil,
      or_false, false_or] at he <;>
    tauto

theorem writePhase_writes (dev : Device) (readback : Bool) (p : Parsed) (value : Int)
    (e : Event) (he : e ∈ (writePhase dev readback p value).2) (hw : e.isWrite = true) :
    e = writeEvent p.size p.daddress value p.len p.block := by
  have hro := readOld_not_write dev p.size p.daddress
  rcases writePhase_events dev readback p value e he with h | h | h | h
  · subst h; cases hw
  · exact h
  · subst h; cases hw
  · subst h; rw [hro] at hw; cases hw

theorem maskPhase_writes (dev : Device) (yes readback : Bool) (p : Parsed) (asked : Nat)
    (hmask : p.vmask ≠ 0) (e : Event) (he : e ∈ (maskPhase dev yes readback p asked).2)
    (hw : e.isWrite = true) :
    e = writeEvent p.size p.daddress
          (maskedValue p.value p.vmask (readOld dev p.size p.daddress).2) p.len p.block := by
  have hro := readOld_not_write dev p.size p.daddress
  unfold maskPhase at he
  rw [if_pos hmask] at he
  simp only at he
  split_ifs at he
  · simp only [List.mem_singleton] at he
    subst he; rw [hro] at hw; cases hw
  · simp only [List.mem_cons, List.mem_singleton, List.not_mem_nil, or_false] at he
    rcases he with he | he
    · subst he; rw [hro] at hw; cases hw
    · subst he; cases hw
  · simp only [List.mem_append, List.mem_cons, List.mem_singleton, List.not_mem_nil,
      or_false] at he
    rcases he with (he | he) | he
    · subst he; rw [hro] at hw; cases hw
    · subst he; cases hw
    · exact writePhase_writes dev readback p _ e he hw
  · simp only [List.mem_cons] at he
    rcases he with he | he
    · subst he; rw [hro] at hw; cases hw
    · exact writePhase_writes dev readback p _ e he hw

theorem run_writes (dev : Device) (yes readback : Bool) (p : Parsed)
    (hmask : p.vmask ≠ 0) (e : Event) (he : e ∈ (run dev yes readback p).2)
    (hw : e.isWrite = true) :
    e = writeEvent p.size p.daddress
          (maskedValue p.value p.vmask (readOld dev p.size p.daddress).2) p.len p.block := by
  unfold run at he
  split_ifs at he
  · cases he
  · simp only [List.mem_singleton] at he
    subst he; cases hw
  · simp only [List.mem_cons] at he
    rcases he with he | he
    · subst he; cases hw
    · exact maskPhase_writes dev yes readback p 1 hmask e he hw
  · exact maskPhase_writes dev yes readback p 0 hmask e he hw

theorem writePhase_mem (dev : Device) (readback : Bool) (p : Parsed) (value : Int)
    (hpec : p.pec = true → 0 ≤ dev.set_pec true) :
    writeEvent p.size p.daddress value p.len p.block ∈ (writePhase dev readback p value).2 := by
  have h1 : ¬ (p.pec = true ∧ dev.set_pec true < 0) := by
    intro h; have := hpec h.1; omega
  unfold writePhase
  simp only [if_neg h1]
  split_ifs <;> simp

theorem maskPhase_mem (dev : Device) (yes readback : Bool) (p : Parsed) (asked : Nat)
    (hmask : p.vmask ≠ 0) (hack : yes = true ∨ dev.user_ack asked true = true)
    (hold : 0 ≤ (readOld dev p.size p.daddress).2)
    (hpec : p.pec = true → 0 ≤ dev.set_pec true) :
    writeEvent p.size p.daddress
        (maskedValue p.value p.vmask (readOld dev p.size p.daddress).2) p.len p.block
      ∈ (maskPhase dev yes readback p asked).2 := by
  have hw := writePhase_mem dev readback p
    (maskedValue p.value p.vmask (readOld dev p.size p.daddress).2) hpec
  have hneg : ¬ (readOld dev p.size p.daddress).2 < 0 := by omega
  unfold maskPhase
  rw [if_pos hmask]
  simp only [if_neg hneg]
  split_ifs with h1 h2
  · rcases hack with h | h
    · rw [h] at h1; cases h1
    · rw [h] at h2; cases h2
  · exact List.mem_append_right _ hw
  · exact List.mem_cons_of_mem _ hw

/-- C11: when a mask is given, every SMBus write that `i2cset` issues carries
`(value & vmask) | (oldvalue & ~vmask)`, where `oldvalue` is what the register
read; the write is issued once the device is open, the questions (if any) are
answered with yes, the old value is read and PEC (if asked for) is set.  On
every bit of the `int` the value written equals the requested value where the
mask has a 1 and the old value where the mask has a 0, and it fits the byte
or word written when the requested and the old value do.  So `0x12` under the
mask `0x0f` over the old value `0x34` writes `0x32`. -/
theorem C11_masked_write (dev : Device) (yes readback : Bool) (p : Parsed)
    (hmask : p.vmask ≠ 0) :
    (∀ e ∈ (run dev yes readback p).2, e.isWrite = true →
        e = writeEvent p.size p.daddress
              (maskedValue p.value p.vmask (readOld dev p.size p.daddress).2) p.len p.block)
    ∧ (¬ (dev.open_i2c_dev < 0 ∨ dev.check_funcs ≠ 0 ∨ dev.set_slave_addr ≠ 0) →
        (yes = true ∨ (dev.user_ack 0 (confirmDefault p.address) = true
          ∧ dev.user_ack 1 true = true)) →
        0 ≤ (readOld dev p.size p.daddress).2 →
        (p.pec = true → 0 ≤ dev.set_pec true) →
        writeEvent p.size p.daddress
            (maskedValue p.value p.vmask (readOld dev p.size p.daddress).2) p.len p.block
          ∈ (run dev yes readback p).2)
    ∧ (∀ (oldvalue : Int) (i : Nat), i < 32 →
        (toBits (maskedValue p.value p.vmask oldvalue)).testBit i
          = if (toBits p.vmask).testBit i then (toBits p.value).testBit i
            else (toBits oldvalue).testBit i)
    ∧ (∀ (oldvalue : Int) (k : Nat), k ≤ 31 → 0 ≤ p.value → p.value < 2 ^ k →
        0 ≤ oldvalue → oldvalue < 2 ^ k →
        0 ≤ maskedValue p.value p.vmask oldvalue ∧ maskedValue p.value p.vmask oldvalue < 2 ^ k)
    ∧ run stdDevice true false exampleMasked
        = (0, [Event.read_byte_data 0, Event.write_byte_data 0 0x32]) := by
  refine ⟨fun e he hw => run_writes dev yes readback p hmask e he hw, ?_,
    fun o i hi => maskedValue_testBit p.value p.vmask o i hi,
    fun o k hk h1 h2 h3 h4 => maskedValue_range p.value p.vmask o k hk h1 h2 h3 h4, by decide⟩
  intro hopen hack hold hpec
  unfold run
  rw [if_neg hopen]
  split_ifs with h1 h2
  · rcases hack with h | h
    · rw [h] at h1; cases h1
    · rw [h.1] at h2; cases h2
  · rcases hack with h | h
    · rw [h] at h1; cases h1
    · exact List.mem_cons_of_mem _
        (maskPhase_mem dev yes readback p 1 hmask (Or.inr h.2) hold hpec)
  · have hy : yes = true := by cases yes <;> simp_all
    exact maskPhase_mem dev yes readback p 0 hmask (Or.inl hy) hold hpec

/-- Witness for C11: `i2cset -y -m 0x0f 0 0x20 0x00 0x12 b` on a register that
reads `0x34`. -/
theorem C11_masked_write_witness :
    exampleMasked.vmask ≠ 0
      ∧ writeEvent exampleMasked.size exampleMasked.daddress
            (maskedValue exampleMasked.value exampleMasked.vmask
              (readOld stdDevice exampleMasked.size exampleMasked.daddress).2)
            exampleMasked.len exampleMasked.block
          ∈ (run stdDevice true false exampleMasked).2 :=
  ⟨by decide,
    (C11_masked_write stdDevice true false exampleMasked (by decide)).2.1
      (by decide) (Or.inl rfl) (by decide) (by decide)⟩

/-- C12 (evaluation of the code where it departs from the claim): the data
value is tested with `*end || value < 0` on an `int`, so an empty VALUE
argument, which is no number, is accepted as 0 in byte, word and block mode,
and a number that does not fit the `int` is accepted as its low 32 bits
(`4294967296` as 0, `0x10000ffff` as `0xffff`).  The same check in
`i2ctransfer` (`arg_ptr == end`) rejects the empty text.  Values such as
`0x100`, `12z` and `-1` are rejected as claimed. -/
theorem C12_value_check_gaps :
    acceptedValue (parseCommandLine stdEnv false none
        ["0".toList, "0x20".toList, "0x00".toList, "".toList, "b".toList])
      = some (smbus_size.I2C_SMBUS_BYTE_DATA, 0)
    ∧ acceptedValue (parseCommandLine stdEnv false none
        ["0".toList, "0x20".toList, "0x00".toList, "".toList, "w".toList])
      = some (smbus_size.I2C_SMBUS_WORD_DATA, 0)
    ∧ (parseCommandLine stdEnv false none
        ["0".toList, "0x20".toList, "0x00".toList, "1".toList, "".toList, "s".toList]).toOption
      = some ⟨0, 0x20, smbus_size.I2C_SMBUS_BLOCK_DATA, false, 0, -1, 0, [1, 0], 2⟩
    ∧ acceptedValue (parseCommandLine stdEnv false none
        ["0".toList, "0x20".toList, "0x00".toList, "4294967296".toList, "b".toList])
      = some (smbus_size.I2C_SMBUS_BYTE_DATA, 0)
    ∧ acceptedValue (parseCommandLine stdEnv false none
        ["0".toList, "0x20".toList, "0x00".toList, "0x10000ffff".toList, "w".toList])
      = some (smbus_size.I2C_SMBUS_WORD_DATA, 0xffff)
    ∧ (run stdDevice true false
        ⟨0, 0x20, smbus_size.I2C_SMBUS_BYTE_DATA, false, 0, 0, 0, [], 0⟩).2
      = [Event.write_byte_data 0 0]
    ∧ I2cTransfer.outcome
        (I2cTransfer.parseArg I2cTransfer.stdEnv I2cTransfer.noFlags
          I2cTransfer.exampleDataState "".toList)
      = .error I2cTransfer.Failure.InvalidDataByte
    ∧ rejectedWith (parseCommandLine stdEnv false none
        ["0".toList, "0x20".toList, "0x00".toList, "0x100".toList, "b".toList])
      = some Failure.DataValueOutOfRange
    ∧ rejectedWith (parseCommandLine stdEnv false none
        ["0".toList, "0x20".toList, "0x00".toList, "12z".toList, "b".toList])
      = some Failure.DataValueInvalid
    ∧ rejectedWith (parseCommandLine stdEnv false none
        ["0".toList, "0x20".toList, "0x00".toList, "-1".toList, "w".toList])
      = some Failure.DataValueInvalid := by
  refine ⟨by decide, by decide, by decide, by decide, by decide, by decide, rfl,
    by decide, by decide, by decide⟩

end I2cSet

/-! ## Theorems: `i2cget` -/

namespace I2cGet

open I2cSet (smbus_size)

/-- C13 (as amended): for every invocation without `-y` whose chip address is
in `0x50..0x57` and whose mode requests PEC, `confirm` returns 0 without
asking the user and the run ends without any event: no question, no PEC
ioctl, no SMBus transfer (exit status 0, or 1 when the device could not be
opened). -/
theorem C13_no_pec_read_from_eeprom (env : I2cSet.Env) (dev : Device) (all_addrs : Bool)
    (args : List (List Char)) (p : Parsed)
    (hparse : parseCommandLine env all_addrs args = .ok p)
    (hlo : 0x50 ≤ p.address) (hhi : p.address ≤ 0x57) (hpec : p.pec = true) :
    confirm dev p.address p.size p.daddress p.pec = (false, [])
      ∧ (main env dev all_addrs false args).2 = []
      ∧ ((main env dev all_addrs false args).1 = 0 ∨ (main env dev all_addrs false args).1 = 1)
      ∧ ∀ e ∈ (main env dev all_addrs false args).2, e.isRead = false := by
  have hc : confirm dev p.address p.size p.daddress p.pec = (false, []) := by
    unfold confirm
    rw [if_pos ⟨hlo, hhi, hpec⟩]
  have hm : main env dev all_addrs false args
      = if dev.open_i2c_dev < 0 ∨ dev.check_funcs ≠ 0 ∨ dev.set_slave_addr ≠ 0 then (1, [])
        else (0, []) := by
    unfold main
    rw [hparse]
    simp only [run, hc, if_true]
  refine ⟨hc, ?_, ?_, ?_⟩
  · rw [hm]; split_ifs <;> rfl
  · rw [hm]; split_ifs
    · right; rfl
    · left; rfl
  · intro e he
    rw [hm] at he
    split_ifs at he <;> cases he

/-- Witness for C13: `i2cget 0 0x50 0x00 bp` without `-y`. -/
theorem C13_no_pec_read_from_eeprom_witness :
    parseCommandLine I2cSet.stdEnv false eepromPecArgs
        = .ok ⟨0, 0x50, smbus_size.I2C_SMBUS_BYTE_DATA, true, 0, 32⟩
      ∧ (main I2cSet.stdEnv stdDevice false false eepromPecArgs).2 = [] :=
  ⟨rfl,
    (C13_no_pec_read_from_eeprom I2cSet.stdEnv stdDevice false eepromPecArgs
      ⟨0, 0x50, smbus_size.I2C_SMBUS_BYTE_DATA, true, 0, 32⟩ rfl (by decide) (by decide)
      rfl).2.1⟩

/-- Counterexample to C13 as stated: `i2cget -y 0 0x50 0x00 bp` has chip
address `0x50` and requests PEC; with `-y` the function `confirm` is not
called, PEC is switched on and the read byte data transfer is issued. -/
theorem C13_counterexample :
    (parseCommandLine I2cSet.stdEnv false eepromPecArgs).toOption
        = some ⟨0, 0x50, smbus_size.I2C_SMBUS_BYTE_DATA, true, 0, 32⟩
      ∧ main I2cSet.stdEnv stdDevice false true eepromPecArgs
        = (0, [Event.set_pec, Event.read_byte_data 0])
      ∧ (Event.read_byte_data 0).isRead = true := by
  decide

end I2cGet

/-! ## Theorems: robot control -/

namespace Robot

open CLib

theorem scanResults_append (W id : Int) (m : detect_result_t) (post : List detect_result_t)
    (hm : m.trackID = id) :
    ∀ pre : List detect_result_t, (∀ d ∈ pre, d.trackID ≠ id) →
      scanResults W id (pre ++ m :: post)
        = List.replicate pre.length (ChassisCall.follow 0 0)
          ++ [ChassisCall.follow (deadBand (xOffset W m) (-100) 100)
                (deadBand (hOffset m) (-50) 50)] := by
  intro pre
  induction pre with
  | nil =>
    intro _
    simp [scanResults, hm]
  | cons d ds ih =>
    intro hpre
    have hd : d.trackID ≠ id := hpre d (List.mem_cons_self _ _)
    have := ih (fun x hx => hpre x (List.mem_cons_of_mem _ hx))
    rw [List.cons_append, scanResults, if_neg hd, this, List.length_cons,
      List.replicate_succ, List.cons_append]

theorem scanResults_none (W id : Int) :
    ∀ l : List detect_result_t, (∀ d ∈ l, d.trackID ≠ id) →
      scanResults W id l = List.replicate l.length (ChassisCall.follow 0 0) := by
  intro l
  induction l with
  | nil => intro _; rfl
  | cons d ds ih =>
    intro h
    have hd : d.trackID ≠ id := h d (List.mem_cons_self _ _)
    simp only [scanResults, if_neg hd, ih (fun x hx => h x (List.mem_cons_of_mem _ hx)),
      List.length_cons, List.replicate_succ]

/-- C14: once a track id is selected (`id != -1`) and `result.count` is not 0,
`controlLoop` walks along `result.results` up to the first entry whose
`trackID` is the selected id, calls `follow(0, 0)` for every entry before it,
then `follow(x, h)` with `x = deadBand((x1+x2)/2 - NET_INPUTWIDTH/2, -100,
100)` and `h = deadBand((y2-y1) - 320, -50, 50)` from the box of that entry,
then `handle()`, and sets `result.count` to 0; the entries behind the first
match play no part.  The offsets are those of `int` arithmetic, equal to the
plain integer expressions when the coordinates are below `2^29` in size.
Without a matching entry, `follow(0, 0)` is called for every entry. -/
theorem C14_follow_first_match (W entered : Int) (s : ControlState)
    (hid : s.id ≠ -1) (hcount : s.count ≠ 0) :
    (∀ (pre post : List detect_result_t) (m : detect_result_t),
        s.results = pre ++ m :: post → (∀ d ∈ pre, d.trackID ≠ s.id) → m.trackID = s.id →
        controlLoop W entered s
          = ({ s with count := 0 },
              List.replicate pre.length (ChassisCall.follow 0 0)
                ++ [ChassisCall.follow (deadBand (xOffset W m) (-100) 100)
                      (deadBand (hOffset m) (-50) 50),
                    ChassisCall.handle]))
    ∧ (∀ m : detect_result_t,
        -(2 ^ 29) ≤ m.x1 → m.x1 ≤ 2 ^ 29 → -(2 ^ 29) ≤ m.x2 → m.x2 ≤ 2 ^ 29 →
        -(2 ^ 29) ≤ m.y1 → m.y1 ≤ 2 ^ 29 → -(2 ^ 29) ≤ m.y2 → m.y2 ≤ 2 ^ 29 →
        -(2 ^ 29) ≤ W → W ≤ 2 ^ 29 →
        xOffset W m = Int.tdiv (m.x1 + m.x2) 2 - Int.tdiv W 2
          ∧ hOffset m = (m.y2 - m.y1) - 320)
    ∧ ((∀ d ∈ s.results, d.trackID ≠ s.id) →
        controlLoop W entered s
          = ({ s with count := 0 },
              List.replicate s.results.length (ChassisCall.follow 0 0)
                ++ [ChassisCall.handle]))
    ∧ (controlLoop 640 0 ⟨7, 3, exampleResults⟩).2
        = [ChassisCall.follow 0 0, ChassisCall.follow 0 80, ChassisCall.handle] := by
  refine ⟨?_, ?_, ?_, by decide⟩
  · intro pre post m hres hpre hm
    unfold controlLoop
    rw [if_pos hid, if_pos hcount, hres, scanResults_append W s.id m post hm pre hpre,
      List.append_assoc]
    rfl
  · intro m h1 h2 h3 h4 h5 h6 h7 h8 h9 h10
    unfold xOffset hOffset
    have hs : toInt (m.x1 + m.x2) = m.x1 + m.x2 := toInt_eq _ (by omega) (by omega)
    have hd : toInt (m.y2 - m.y1) = m.y2 - m.y1 := toInt_eq _ (by omega) (by omega)
    have b1 := tdiv_two_bounds (m.x1 + m.x2)
    have b2 := tdiv_two_bounds W
    rw [hs, hd]
    constructor
    · apply toInt_eq
      · rcases le_total 0 (m.x1 + m.x2) with hx | hx <;> rcases le_total 0 W with hw | hw <;>
          have := b1.1 <;> have := b1.2 <;> have := b2.1 <;> have := b2.2 <;> omega
      · rcases le_total 0 (m.x1 + m.x2) with hx | hx <;> rcases le_total 0 W with hw | hw <;>
          have := b1.1 <;> have := b1.2 <;> have := b2.1 <;> have := b2.2 <;> omega
    · exact toInt_eq _ (by omega) (by omega)
  · intro hnone
    unfold controlLoop
    rw [if_pos hid, if_pos hcount, scanResults_none W s.id s.results hnone]

/-- Witness for C14: track 7 selected, three entries of which the second and
third belong to track 7. -/
theorem C14_follow_first_match_witness :
    (⟨7, 3, exampleResults⟩ : ControlState).id ≠ -1
      ∧ (⟨7, 3, exampleResults⟩ : ControlState).count ≠ 0
      ∧ controlLoop 640 0 ⟨7, 3, exampleResults⟩
          = ({ (⟨7, 3, exampleResults⟩ : ControlState) with count := 0 },
              List.replicate [(⟨10, 20, 50, 90, 3, 0⟩ : detect_result_t)].length
                  (ChassisCall.follow 0 0)
                ++ [ChassisCall.follow
                      (deadBand (xOffset 640 ⟨200, 100, 400, 500, 7, 0⟩) (-100) 100)
                      (deadBand (hOffset ⟨200, 100, 400, 500, 7, 0⟩) (-50) 50),
                    ChassisCall.handle]) :=
  ⟨by decide, by decide,
    (C14_follow_first_match 640 0 ⟨7, 3, exampleResults⟩ (by decide) (by decide)).1
      [⟨10, 20, 50, 90, 3, 0⟩] [⟨0, 0, 10, 10, 7, 0⟩] ⟨200, 100, 400, 500, 7, 0⟩
      rfl (by decide) rfl⟩

end Robot

